import Mathlib

/-!
# Verification of the yruntime exception-handling engine

Shallow embedding, in Lean 4, of the exception-handling and stack-unwinding
core of the GNU-Ymir `yruntime` repository, together with proofs of the
specified properties.

Embedded source files:
* `src/rt/except/personnality.c` — LEB128 / DWARF encoded-value decoding,
  LSDA scanning, the two-phase personality routine (`namespace RtP`);
* `src/c/except.c`               — exception headers, the per-thread header
  stack, throw / begin-catch (`namespace CExc`);
* `src/runtime/src/throw.c`      — the process-wide registry of per-thread
  exception stacks (`namespace ThrowC`);
* `src/rt/except/panic.c`, `src/rt/run.c` — fatal-termination guards
  (`namespace Panic`).

Conventions of the embedding:
* machine bytes and 64-bit words are `Nat` with truncation written as
  `% 2 ^ 64` exactly where the C computation truncates;
* memory is a total function `Nat → Nat`; a byte read is `m a % 256`;
  pointers are `Nat` addresses.  Cursor advancement uses plain `+`
  (C pointer arithmetic that stays inside an object cannot wrap), while
  value arithmetic that legally wraps in C uses explicit `% 2 ^ 64`;
* the C `while` loops become fuel-indexed recursion; running out of fuel is
  the distinguished error `EFail.fuelOut` (never hit on well-formed input);
* a call to `_yrt_exc_terminate` is the error `EFail.term msg`; an execution
  step that is undefined in C (null dereference, arithmetic on the machine
  address of a local variable) is the distinguished error `EFail.crash`.
-/

/-- `2 ^ 64`, the modulus of the C `_Unwind_Internal_Ptr` arithmetic. -/
def W64 : Nat := 18446744073709551616

/-- Memory: a total byte function over `Nat` addresses. -/
def Mem : Type := Nat → Nat

/-- A byte access `*p` (a value of C type `uint8_t`). -/
def readByte (m : Mem) (p : Nat) : Nat := m p % 256

/-- 64-bit wrapping addition, as C unsigned arithmetic performs it. -/
def add64 (a b : Nat) : Nat := (a + b) % W64

/-- Failure modes of the embedded C code. -/
inductive EFail : Type
  /-- `_yrt_exc_terminate (msg, ...)`: fatal diagnostic then `abort`. -/
  | term (msg : String)
  /-- Undefined behaviour (null dereference or address-of-local arithmetic). -/
  | crash
  /-- Fuel exhaustion of the embedding (no counterpart in C). -/
  | fuelOut
deriving DecidableEq, Repr

namespace RtP

/- ===================================================================
   src/rt/except/personnality.c
   =================================================================== -/

/-- `_yrt_exc_read_uleb128`, the `while (1)` loop (lines 78–94).
`result` and `shift` are the C locals; each C iteration does
`result |= (b & 0x7F) << shift`, exits when bit 7 of the byte is clear,
else `shift += 7` and continues. -/
def uleb_loop (m : Mem) : Nat → Nat → Nat → Nat → Except EFail (Nat × Nat)
  | 0, _, _, _ => .error .fuelOut
  | fuel + 1, p, result, shift =>
    let b := readByte m p
    let result := (result ||| (((b &&& 0x7F) <<< shift) % W64)) % W64
    if b &&& 0x80 = 0 then .ok (result, p + 1)
    else uleb_loop m fuel (p + 1) result (shift + 7)

/-- `_yrt_exc_read_uleb128 (pref)`: returns the decoded value and the
advanced cursor. -/
def read_uleb128 (fuel : Nat) (m : Mem) (p : Nat) : Except EFail (Nat × Nat) :=
  uleb_loop m fuel p 0 0

/-- `_yrt_exc_read_sleb128`, the loop body (lines 96–117).  The C routine
keeps the last byte `b`; on exit, if `shift < 64` and bit 6 of `b` is set it
ors in `-(1 << shift)`, i.e. `2^64 - 2^shift` as an unsigned 64-bit word.
The returned value is the raw (unsigned) 64-bit pattern, exactly like the C
return type `_Unwind_Internal_Ptr`. -/
def sleb_loop (m : Mem) : Nat → Nat → Nat → Nat → Except EFail (Nat × Nat)
  | 0, _, _, _ => .error .fuelOut
  | fuel + 1, p, result, shift =>
    let b := readByte m p
    let result := (result ||| (((b &&& 0x7F) <<< shift) % W64)) % W64
    let shift := shift + 7
    if b &&& 0x80 = 0 then
      let result :=
        if shift < 64 ∧ b &&& 0x40 ≠ 0 then (result ||| (W64 - 2 ^ shift)) % W64
        else result
      .ok (result, p + 1)
    else sleb_loop m fuel (p + 1) result shift

/-- `_yrt_exc_read_sleb128 (pref)`. -/
def read_sleb128 (fuel : Nat) (m : Mem) (p : Nat) : Except EFail (Nat × Nat) :=
  sleb_loop m fuel p 0 0

/-- Reinterpret a 64-bit unsigned pattern as a signed integer
(two's complement), as C callers of `read_sleb128` conceptually do. -/
def toSigned64 (n : Nat) : Int :=
  if n < 2 ^ 63 then (n : Int) else (n : Int) - (W64 : Int)

/-- The ULEB128 encoding of `v` (the byte list the claim speaks of;
low-order 7-bit group first, bit 7 set on every byte but the last). -/
def encodeULEB (v : Nat) : List Nat :=
  if h : v < 128 then [v]
  else (v % 128 + 128) :: encodeULEB (v / 128)
  decreasing_by exact Nat.div_lt_self (by omega) (by omega)

/-- The SLEB128 encoding of `v` (7-bit groups of the two's complement, low
group first, terminated as soon as the remaining groups are pure sign bits;
for a group `b < 128`, "sign bit set" is `64 ≤ b`). -/
def encodeSLEB (v : Int) : List Nat :=
  if (v - (v % 128)) / 128 = 0 ∧ (v % 128).toNat < 64 ∨
     (v - (v % 128)) / 128 = -1 ∧ 64 ≤ (v % 128).toNat
  then [(v % 128).toNat]
  else ((v % 128).toNat + 128) :: encodeSLEB ((v - (v % 128)) / 128)
  termination_by v.natAbs
  decreasing_by omega

/-- `bs` laid out in memory `m` starting at address `p`. -/
def bytesAt (m : Mem) (p : Nat) (bs : List Nat) : Prop :=
  ∀ k, k < bs.length → readByte m (p + k) = bs.getD k 0

instance (m : Mem) (p : Nat) (bs : List Nat) : Decidable (bytesAt m p bs) :=
  Nat.decidableBallLT _ _

/-- A concrete memory image: `encodeULEB 300 = [172, 2]` at address 0,
`encodeSLEB (-2) = [126]` at address 2. -/
def w6mem : Mem := fun a => [172, 2, 126].getD a 0

/-- 64-bit wrapping subtraction (C unsigned/pointer arithmetic). -/
def sub64 (a b : Nat) : Nat := (a + (W64 - b % W64)) % W64

/-- The unwind context, as the abstract source of the accessor values the
personality code reads from it (`_Unwind_GetRegionStart`,
`_Unwind_GetTextRelBase`, `_Unwind_GetDataRelBase`, `_Unwind_GetIPInfo`,
`_Unwind_GetLanguageSpecificData`, `_Unwind_GetCFA`). -/
structure Ctx : Type where
  regionStart : Nat
  textRelBase : Nat
  dataRelBase : Nat
  ip : Nat
  ipBeforeInsn : Bool
  lsda : Option Nat
  cfa : Nat
deriving DecidableEq, Repr

/-- `_yrt_exc_size_of_encoded_value` (lines 42–57); `sizeof (void*) = 8`
(LP64). -/
def size_of_encoded_value (encoding : Nat) : Except EFail Nat :=
  if encoding = 0xff then .ok 0
  else
    match encoding &&& 0x07 with
    | 0x00 => .ok 8
    | 0x02 => .ok 2
    | 0x03 => .ok 4
    | 0x04 => .ok 8
    | _ => .error (.term "reading encoded")

/-- `_yrt_exc_base_of_encoded_value` (lines 59–76); the context accessors
dereference a NULL context. -/
def base_of_encoded_value (encoding : Nat) (ctx : Option Ctx) :
    Except EFail Nat :=
  if encoding = 0xff then .ok 0
  else
    match encoding &&& 0x70 with
    | 0x00 | 0x10 | 0x50 => .ok 0
    | 0x20 =>
      match ctx with
      | some c => .ok c.textRelBase
      | none => .error .crash
    | 0x30 =>
      match ctx with
      | some c => .ok c.dataRelBase
      | none => .error .crash
    | 0x40 =>
      match ctx with
      | some c => .ok c.regionStart
      | none => .error .crash
    | _ => .error (.term "reading encoded")

/-- `_yrt_exc_read_unaligned` (lines 120–123) for the little-endian targets
this runtime supports: read `sz` bytes at `p`, low byte first. -/
def readLE (m : Mem) (p : Nat) : Nat → Nat
  | 0 => 0
  | sz + 1 => readByte m p + 256 * readLE m (p + 1) sz

/-- `_yrt_exc_read_encoded_value_with_base` (lines 126–191).  The
`DW_EH_PE_aligned` case and the `DW_EH_PE_pcrel` relocation both use
`(_Unwind_Internal_Ptr) p` / `psave` — the machine address of the *caller's
cursor variable* (the parameter is `const char** p`), which no shallow
embedding can represent — and are modelled as undefined (`crash`).  The
claims never exercise them. -/
def read_encoded_value_with_base (fuel : Nat) (m : Mem) (encoding : Nat)
    (base : Nat) (p : Nat) : Except EFail (Nat × Nat) :=
  if encoding = 0x50 then .error .crash
  else do
    let (result, pAfter) ←
      match encoding &&& 0x0f with
      | 0x01 => read_uleb128 fuel m p
      | 0x09 => read_sleb128 fuel m p
      | 0x02 | 0x0A => (.ok (readLE m p 2, p + 2) : Except EFail (Nat × Nat))
      | 0x03 | 0x0B => .ok (readLE m p 4, p + 4)
      | 0x04 | 0x0C => .ok (readLE m p 8, p + 8)
      | 0x00 => .ok (readLE m p 8, p + 8)
      | _ => .error (.term "reading encoded")
    if result ≠ 0 then
      if encoding &&& 0x70 = 0x10 then .error .crash
      else
        let result := add64 result base
        if encoding &&& 0x80 ≠ 0 then .ok (readLE m result 8, pAfter)
        else .ok (result, pAfter)
    else .ok (result, pAfter)

/-- `_yrt_exc_read_encoded_value` (lines 193–196). -/
def read_encoded_value (fuel : Nat) (m : Mem) (ctx : Option Ctx)
    (encoding : Nat) (p : Nat) : Except EFail (Nat × Nat) := do
  let base ← base_of_encoded_value encoding ctx
  read_encoded_value_with_base fuel m encoding base p

/-- The C conversion of the unsigned 64-bit `ARFilter` to the `int32_t`
return type of `_yrt_exc_action_table_lookup`. -/
def toInt32 (n : Nat) : Int :=
  if n % 2 ^ 32 < 2 ^ 31 then ((n % 2 ^ 32 : Nat) : Int)
  else ((n % 2 ^ 32 : Nat) : Int) - 2 ^ 32

/-- Result of `_yrt_exc_action_table_lookup`: the returned filter (as
`int32_t`) and the out-parameters `saw_handler` / `saw_cleanup`. -/
structure LookupOut : Type where
  ret : Int
  sawHandler : Bool
  sawCleanup : Bool
deriving DecidableEq, Repr

/-- `_yrt_exc_action_table_lookup` (lines 198–232).  `ARFilter` and
`ARDisp` are kept as the raw unsigned 64-bit values the C holds them in
(`_Unwind_Internal_Ptr` is unsigned), so `ARFilter > 0` is the C's unsigned
comparison and the final `else break` (intended for negative filters) is as
unreachable here as it is in the C; `apn + ARDisp` is the wrapping pointer
addition, which realises a signed displacement.  `TType` is the raw pointer
value (`0` = NULL, as scan initialises it). -/
def action_table_lookup (m : Mem) :
    Nat → Nat → Nat → Nat → Nat → Nat → Bool → Bool → Except EFail LookupOut
  | 0, _, _, _, _, _, _, _ => .error .fuelOut
  | fuel + 1, actions, actionRecord, TTypeBase, TType, TTypeEncoding,
      sawH, sawC => do
    let (ARFilter, ap) ← read_sleb128 fuel m actionRecord
    let apn := ap
    let (ARDisp, _) ← read_sleb128 fuel m ap
    if ARFilter = 0 then
      if ARDisp = 0 then .ok ⟨0, sawH, true⟩
      else
        action_table_lookup m fuel actions (add64 apn ARDisp) TTypeBase TType
          TTypeEncoding sawH true
    else if actions &&& 0x08 ≠ 0 then
      if ARDisp = 0 then .ok ⟨0, sawH, sawC⟩
      else
        action_table_lookup m fuel actions (add64 apn ARDisp) TTypeBase TType
          TTypeEncoding sawH sawC
    else if ARFilter > 0 then do
      let encodedSize ← size_of_encoded_value TTypeEncoding
      let tp := sub64 TType (ARFilter * encodedSize % W64)
      let _entry ← read_encoded_value_with_base fuel m TTypeEncoding TTypeBase tp
      .ok ⟨toInt32 ARFilter, true, sawC⟩
    else .ok ⟨0, sawH, sawC⟩

/-- The handler data `_yrt_exc_save` (lines 26–32) stores into the header:
`(handler, lsda, landingPad, cfa)`. -/
structure SavedHdr : Type where
  handler : Int
  lsda : Nat
  landingPad : Nat
  cfa : Nat
deriving DecidableEq, Repr

/-- Result of `_yrt_exc_scan_lsda`: the reason code, the values left in the
out-parameters `*landingPad` and `*handler`, the `_yrt_exc_save` call (if
any), and — exposed for specification only — the final value of the local
`actionRecord`. -/
structure ScanOut : Type where
  code : Nat
  landingPad : Nat
  handler : Int
  saved : Option SavedHdr
  actionRecord : Option Nat
deriving DecidableEq, Repr

/-- The `while (p < actionTable)` call-site loop of `_yrt_exc_scan_lsda`
(lines 277–290), with loop state `(p, *landingPad, actionRecord)`.  An entry
starting beyond `ip` sets `p = actionTable` (so the loop exits at its next
test, exactly as in the C). -/
def cs_loop (m : Mem) (CSEncoding start ip LPStart actionTable : Nat) :
    Nat → Nat → Nat → Option Nat → Except EFail (Nat × Option Nat)
  | 0, _, _, _ => .error .fuelOut
  | fuel + 1, p, lp, ar =>
    if p < actionTable then do
      let (CSStart, p) ← read_encoded_value fuel m none CSEncoding p
      let (CSLen, p) ← read_encoded_value fuel m none CSEncoding p
      let (CSLandingPad, p) ← read_encoded_value fuel m none CSEncoding p
      let (CSAction, p) ← read_uleb128 fuel m p
      if ip < start + CSStart then
        cs_loop m CSEncoding start ip LPStart actionTable fuel actionTable lp ar
      else if ip < start + CSStart + CSLen then
        .ok ((if CSLandingPad ≠ 0 then LPStart + CSLandingPad else lp),
             (if CSAction ≠ 0 then some (actionTable + CSAction - 1) else ar))
      else cs_loop m CSEncoding start ip LPStart actionTable fuel p lp ar
    else .ok (lp, ar)

/-- `_yrt_exc_scan_lsda` (lines 235–314).  `lp0`/`h0` are the values the
caller's `*landingPad` / `*handler` hold on entry (the personality routine
initialises both to 0).  The C's post-loop `if (landingPad == 0) {}`
compares the out-*pointer* with null; every caller passes a valid pointer,
so that branch is dead and the chain continues with the
`actionRecord == NULL` test, exactly as modelled here.
`_UA_SEARCH_PHASE = 1`; `_URC_CONTINUE_UNWIND = 8`;
`_URC_HANDLER_FOUND = 6`. -/
def _yrt_exc_scan_lsda (fuel : Nat) (m : Mem) (lsda : Option Nat)
    (actions : Nat) (ctx : Option Ctx) (cfa : Nat) (lp0 : Nat) (h0 : Int) :
    Except EFail ScanOut :=
  match lsda with
  | none => .ok ⟨8, lp0, h0, none, none⟩
  | some L => do
    let p := L
    let start := match ctx with | some c => c.regionStart | none => 0
    let LPStartEncoding := readByte m p
    let p := p + 1
    let (LPStart, p) ←
      if LPStartEncoding ≠ 0xff then read_encoded_value fuel m ctx LPStartEncoding p
      else pure (start, p)
    let TTypeEncoding := readByte m p
    let p := p + 1
    let (TType, p) ←
      if TTypeEncoding ≠ 0xff then do
        let (TTBase, p) ← read_uleb128 fuel m p
        pure (add64 p TTBase, p)
      else pure ((0 : Nat), p)
    let CSEncoding := readByte m p
    let p := p + 1
    let (CSTableSize, p) ← read_uleb128 fuel m p
    let actionTable := p + CSTableSize
    let TTypeBase ← base_of_encoded_value TTypeEncoding ctx
    let (ip0, before) ←
      match ctx with
      | some c => (pure (c.ip, c.ipBeforeInsn) : Except EFail (Nat × Bool))
      | none => .error .crash
    let ip := if before then ip0 else ip0 - 1
    let (lp, ar) ← cs_loop m CSEncoding start ip LPStart actionTable fuel p lp0 none
    let (sawH, sawC, handler) ←
      match ar with
      | none => (pure (false, true, h0) : Except EFail (Bool × Bool × Int))
      | some a => do
        let lk ← action_table_lookup m fuel actions a TTypeBase TType TTypeEncoding
          false false
        pure (lk.sawHandler, lk.sawCleanup, lk.ret)
    if ¬sawC ∧ ¬sawH then .ok ⟨8, lp, handler, none, ar⟩
    else if actions &&& 0x01 ≠ 0 then
      if ¬sawH then .ok ⟨8, lp, handler, none, ar⟩
      else .ok ⟨6, lp, handler, some ⟨handler, L, lp, cfa⟩, ar⟩
    else .ok ⟨0, lp, handler, none, ar⟩

/-- Phase-1 data saved in the exception header, as `_yrt_exc_restore`
(lines 34–40) reads it back. -/
structure HeaderSaved : Type where
  lsda : Nat
  handler : Int
  landingPad : Nat
  cfa : Nat
deriving DecidableEq, Repr

/-- Result of the personality routine: the reason code and the values
written into the unwind context (`_Unwind_SetGR` on the two EH return-data
registers, `_Unwind_SetIP`), plus any `_yrt_exc_save` performed. -/
structure POut : Type where
  code : Nat
  gr0 : Option Nat
  gr1 : Option Int
  ipSet : Option Nat
  saved : Option SavedHdr
deriving DecidableEq, Repr

/-- The common tail of `_yrt_exc_personality` (lines 344–353): continue
unwinding when no landing pad was produced, else install the context —
register 0 gets the exception-header address, register 1 the handler index,
and the instruction pointer is set to the landing pad.
`_URC_INSTALL_CONTEXT = 7`. -/
def personality_tail (hdrAddr : Nat) (handler : Int) (landingPad : Nat)
    (saved : Option SavedHdr) : Except EFail POut :=
  if landingPad = 0 then .ok ⟨8, none, none, none, saved⟩
  else .ok ⟨7, some hdrAddr, some handler, some landingPad, saved⟩

/-- `_yrt_exc_personality` (lines 319–354).  `hdrAddr` is the address of the
exception header (the value `(_Unwind_Ptr) unwindHeader`); `hdr` its saved
phase-1 fields.  With `actions == (_UA_CLEANUP_PHASE | _UA_HANDLER_FRAME)`
(`2 | 4 = 6`) the saved data is restored via `_yrt_exc_restore` with no LSDA
parsing, and a zero restored landing pad is a fatal "unwind error";
otherwise the frame's LSDA is scanned and a non-zero scan result is
returned as-is (through the C's `char result` truncation). -/
def _yrt_exc_personality (fuel : Nat) (m : Mem) (actions : Nat)
    (hdrAddr : Nat) (hdr : HeaderSaved) (ctx : Option Ctx) :
    Except EFail POut :=
  if actions = (0x02 ||| 0x04) then
    if hdr.landingPad = 0 then .error (.term "unwind error")
    else personality_tail hdrAddr hdr.handler hdr.landingPad none
  else
    match ctx with
    | none => .error .crash
    | some c => do
      let r ← _yrt_exc_scan_lsda fuel m c.lsda actions ctx c.cfa 0 0
      if r.code % 256 ≠ 0 then .ok ⟨r.code % 256, none, none, none, r.saved⟩
      else personality_tail hdrAddr r.handler r.landingPad r.saved

/-- `__gyc_personality_v0` (src/rt/except/personnality.c lines 357–369):
the exported entry point; any unwind-ABI version other than 1 is answered
with `_URC_FATAL_PHASE1_ERROR = 3` before anything else happens. -/
def __gyc_personality_v0 (fuel : Nat) (m : Mem) (iversion : Int)
    (actions : Nat) (hdrAddr : Nat) (hdr : HeaderSaved) (ctx : Option Ctx) :
    Except EFail POut :=
  if iversion ≠ 1 then .ok ⟨3, none, none, none, none⟩
  else _yrt_exc_personality fuel m actions hdrAddr hdr ctx

/-- `__gyc_personality_v0` of src/c/except.c (lines 308–320): the identical
version check in the older variant, with that file's
`_yrt_exc_personality` body abstracted as the continuation `k`. -/
def gyc_personality_v0_c (k : Nat → Except EFail POut) (iversion : Int)
    (actions : Nat) : Except EFail POut :=
  if iversion ≠ 1 then .ok ⟨3, none, none, none, none⟩
  else k actions

/-- The spec's call-site selection rule: scan entries in order; the first
entry whose interval `[start + s, start + s + l)` covers `ip` is selected
(its non-zero landing pad / action indices updating the outputs); an entry
starting beyond `ip` stops the scan; covering nothing leaves the outputs
unchanged. -/
def selectCallSite (start ip LPStart actionTable : Nat) :
    List (Nat × Nat × Nat × Nat) → Nat × Option Nat → Nat × Option Nat
  | [], out => out
  | (s, l, lpad, act) :: rest, (lp, ar) =>
    if ip < start + s then (lp, ar)
    else if ip < start + s + l then
      ((if lpad ≠ 0 then LPStart + lpad else lp),
       (if act ≠ 0 then some (actionTable + act - 1) else ar))
    else selectCallSite start ip LPStart actionTable rest (lp, ar)

/-- A call-site entry `(start, length, landingPad, action)`, ULEB128-encoded
(the `CSEncoding = DW_EH_PE_uleb128` layout). -/
def encodeEntry (e : Nat × Nat × Nat × Nat) : List Nat :=
  encodeULEB e.1 ++ encodeULEB e.2.1 ++ encodeULEB e.2.2.1 ++ encodeULEB e.2.2.2

/-- A ULEB128-encoded call-site table. -/
def encodeTable (es : List (Nat × Nat × Nat × Nat)) : List Nat :=
  (es.map encodeEntry).flatten

/-- All four fields of every entry below `2 ^ 32`. -/
def tableSmall (es : List (Nat × Nat × Nat × Nat)) : Prop :=
  ∀ e ∈ es, e.1 < 2 ^ 32 ∧ e.2.1 < 2 ^ 32 ∧ e.2.2.1 < 2 ^ 32 ∧ e.2.2.2 < 2 ^ 32

/-- The call-site table of claim C3:
`[(0, 10, L1, A1), (10, 5, 0, 0), (15, 8, L2, 0)]`. -/
def c3_table (L1 A1 L2 : Nat) : List (Nat × Nat × Nat × Nat) :=
  [(0, 10, L1, A1), (10, 5, 0, 0), (15, 8, L2, 0)]

/-- An LSDA holding exactly that table: `LPStart` omitted (so `LPStart`
falls back to the region start), type table omitted, call sites
ULEB128-encoded. -/
def c3_blob (L1 A1 L2 : Nat) : List Nat :=
  [0xff, 0xff, 0x01] ++
    encodeULEB (encodeTable (c3_table L1 A1 L2)).length ++
    encodeTable (c3_table L1 A1 L2)

/-- Concrete memory holding `c3_blob 7 1 9` at address 0. -/
def w3mem : Mem := fun a =>
  [255, 255, 1, 12, 0, 10, 7, 1, 10, 5, 0, 0, 15, 8, 9, 0].getD a 0

/-- The action chain as the claim describes it: `(filter, displacement)`
pairs read as signed-LEB128, following each displacement from the position
after the filter, until a zero displacement ends the chain (values kept as
the raw unsigned 64-bit patterns the C holds). -/
def decodeChain (m : Mem) : Nat → Nat → Except EFail (List (Nat × Nat))
  | 0, _ => .error .fuelOut
  | fuel + 1, a => do
    let (f, ap) ← read_sleb128 fuel m a
    let (d, _) ← read_sleb128 fuel m ap
    if d = 0 then .ok [(f, d)]
    else do
      let rest ← decodeChain m fuel (add64 ap d)
      .ok ((f, d) :: rest)

/-- The walk's outcome per the claim: the first entry with a non-zero
(positive, in the C's unsigned comparison) filter is the handler; zero
filters seen before it mark the frame as cleanup. -/
def chainSpec : List (Nat × Nat) → Option Nat × Bool
  | [] => (none, false)
  | (f, d) :: rest =>
    if f = 0 then
      if d = 0 then (none, true)
      else ((chainSpec rest).1, true)
    else (some f, false)

/-- A single-entry call-site table `[(0, clen, L1, 1)]` whose action offset 1
points at the first byte of the action table. -/
def c4_table (clen L1 : Nat) : List (Nat × Nat × Nat × Nat) :=
  [(0, clen, L1, 1)]

/-- An LSDA for C4: `LPStart` omitted, `TTypeEncoding = DW_EH_PE_udata2`
with `TTBase = 0`, ULEB128 call sites; the action chain itself lives at the
action-table address and is constrained only through `decodeChain`. -/
def c4_blob (clen L1 : Nat) : List Nat :=
  [0xff, 0x02, 0, 0x01] ++
    encodeULEB (encodeTable (c4_table clen L1)).length ++
    encodeTable (c4_table clen L1)

/-- Concrete memory holding `c4_blob 10 7` at address 0, followed by the
action chain `[(5, 0)]` at address 9. -/
def w4mem : Mem := fun a =>
  [255, 2, 0, 1, 4, 0, 10, 7, 1, 5, 0].getD a 0

end RtP

namespace CExc

/- ===================================================================
   src/c/except.c — exception headers, per-thread stack, throw/catch
   =================================================================== -/

/-- Where an exception header lives: the preallocated `ehstorage` slot or a
heap allocation (identified by the address `calloc` returned). -/
inductive Loc : Type
  | slot
  | heap (n : Nat)
deriving DecidableEq, Repr

/-- The mutable state of src/c/except.c: the `object` field of `ehstorage`
(`0` models the C `NULL`), the live heap-allocated headers with their
`object` fields, a fresh-address supply for `calloc`, the `stack` global
(topmost first), and a ghost counter of heap allocations performed. -/
structure St : Type where
  slotObj : Nat
  heap : List (Nat × Nat)
  nextId : Nat
  stack : List Loc
  allocs : Nat
deriving DecidableEq, Repr

/-- The `object` field of the header at `l` (`0` when absent/NULL). -/
def objectAt (st : St) : Loc → Nat
  | .slot => st.slotObj
  | .heap n => (((st.heap.find? (fun e => e.1 = n)).map Prod.snd).getD 0)

/-- `_yrt_exc_create_header` (lines 80–93): reuse `&ehstorage` when its
`object` is NULL, else `calloc` a fresh header (modelled as always
succeeding; the out-of-memory terminate is not reachable here); then set the
`object` field.  Returns the new state and the header's location. -/
def _yrt_exc_create_header (st : St) (obj : Nat) : St × Loc :=
  if st.slotObj ≠ 0 then
    ({ st with heap := (st.nextId, obj) :: st.heap, nextId := st.nextId + 1,
               allocs := st.allocs + 1 }, .heap st.nextId)
  else ({ st with slotObj := obj }, .slot)

/-- `_yrt_exc_free_header` (lines 98–103): `memset` the header to zero; if it
is not the embedded slot, release the heap allocation. -/
def _yrt_exc_free_header (st : St) (l : Loc) : St :=
  match l with
  | .slot => { st with slotObj := 0 }
  | .heap n => { st with heap := st.heap.filter (fun e => e.1 ≠ n) }

/-- `_yrt_exc_push` (lines 108–111). -/
def _yrt_exc_push (st : St) (l : Loc) : St :=
  { st with stack := l :: st.stack }

/-- `_Unwind_DeleteException` on one of our headers: per the Itanium
unwinding ABI it invokes the header's `exception_cleanup` with
`_URC_FOREIGN_EXCEPTION_CAUGHT`, and `_yrt_exc_exception_cleanup`
(lines 154–161) lets that code through its check and frees the header. -/
def delete_exception (st : St) (l : Loc) : St :=
  _yrt_exc_free_header st l

/-- Outcome of a call into the runtime: a normal return with a value, a
fatal `_yrt_exc_terminate`, or undefined behaviour. -/
inductive CRes (α : Type) : Type
  | ret (v : α) (st : St)
  | term (msg : String) (st : St)
  | crash
deriving DecidableEq, Repr

/-- `_yrt_exc_begin_catch` (lines 179–192): read the payload, pop the stack
(`_yrt_exc_pop`, lines 116–120; on an empty stack the C pop dereferences a
null pointer), terminate with "Catch error" unless the popped header is
exactly the argument, else tell the unwind library the exception can be
deleted and return the payload. -/
def _yrt_exc_begin_catch (st : St) (h : Loc) : CRes Nat :=
  let object := objectAt st h
  match st.stack with
  | [] => .crash
  | top :: rest =>
    let st' := { st with stack := rest }
    if h ≠ top then .term "Catch error" st'
    else .ret object (delete_exception st' h)

/-- `_yrt_exc_throw` (lines 164–177): create a header for the payload, push
it, register the cleanup callback, call `_Unwind_RaiseException`.  `reason`
is the environment's input: the reason code with which the unwinder
*returned* (when it does not return, control is at a landing pad and this
function's remainder never runs).  `_URC_END_OF_STACK = 5`. -/
def _yrt_exc_throw (st : St) (data : Nat) (reason : Nat) : CRes Unit :=
  let c := _yrt_exc_create_header st data
  let st2 := _yrt_exc_push c.1 c.2
  if reason = 5 then .term "uncaught exception" st2
  else .term "unwind error " st2

/-- The state effect of `_yrt_exc_throw` up to the point where the unwinder
takes over: header creation and push. -/
def throw_push (st : St) (data : Nat) : St × Loc :=
  let c := _yrt_exc_create_header st data
  (_yrt_exc_push c.1 c.2, c.2)

/-- One throw immediately retired by the matching catch (the unwinder hands
the landing pad exactly the header that was raised). -/
def throw_catch_cycle (st : St) (data : Nat) : CRes Nat :=
  let c := throw_push st data
  _yrt_exc_begin_catch c.1 c.2

/-- A sequence of single-in-flight throw/catch cycles; `none` if any catch
fails. -/
def run_cycles (st : St) : List Nat → Option St
  | [] => some st
  | d :: rest =>
    match throw_catch_cycle st d with
    | .ret _ st' => run_cycles st' rest
    | _ => none

/-- Attempt to retire the handles `ls` in order by successive begin-catch
calls; `true` iff every call succeeds. -/
def retire_all (st : St) : List Loc → Bool
  | [] => true
  | l :: rest =>
    match _yrt_exc_begin_catch st l with
    | .ret _ st' => retire_all st' rest
    | _ => false

/-- Whether a heap header with address `n` is live. -/
def heapLive (st : St) (n : Nat) : Prop :=
  (st.heap.find? (fun e => e.1 = n)).isSome

end CExc

namespace ThrowC

/- ===================================================================
   src/runtime/src/throw.c — process-wide registry of per-thread stacks
   =================================================================== -/

/-- One `struct _yrt_thread_stack` node: owning thread id, the chain of
catcher cells (each cell abstracts its stored `jmp_buf` as a number,
topmost first), and the pending payload pointer `data` (`0` = NULL).
The diagnostic-only fields (`file`, `function`, `line`, `info`, `code`) are
not modelled. -/
structure TNode : Type where
  id : Nat
  stack : List Nat
  data : Nat
deriving DecidableEq, Repr

/-- `_yrt_get_thread_stack_current` (lines 25–33): linear scan for the first
node of this thread. -/
def get_current (id : Nat) : List TNode → Option TNode
  | [] => none
  | n :: rest => if n.id = id then some n else get_current id rest

/-- `_yrt_insert_thread` (lines 35–48): allocate a node with empty stack and
NULL data and link it at the registry head (under the mutex). -/
def insert_thread (id : Nat) (reg : List TNode) : List TNode :=
  ⟨id, [], 0⟩ :: reg

/-- `_yrt_get_thread_stack` (lines 50–57): look up, inserting when absent. -/
def get_thread_stack (id : Nat) (reg : List TNode) : List TNode :=
  match get_current id reg with
  | none => insert_thread id reg
  | some _ => reg

/-- `_yrt_remove_thread_current` / `_yrt_remove_thread` (lines 67–82):
splice out the first node of this thread. -/
def remove_thread (id : Nat) : List TNode → List TNode
  | [] => []
  | n :: rest => if n.id = id then rest else n :: remove_thread id rest

/-- In-place mutation through the node pointer the C code holds: rewrite the
first node of this thread. -/
def update_node (id : Nat) (f : TNode → TNode) : List TNode → List TNode
  | [] => []
  | n :: rest => if n.id = id then f n :: rest else n :: update_node id f rest

/-- `_yrt_exc_push` (lines 84–97), the `returned == 0` path: resolve (and
lazily create) this thread's node, then push a catcher cell. -/
def exc_push (id : Nat) (j : Nat) (reg : List TNode) : List TNode :=
  update_node id (fun n => { n with stack := j :: n.stack })
    (get_thread_stack id reg)

/-- Result of `_yrt_exc_pop` / `_yrt_exc_pop_list`. -/
inductive PopRes : Type
  /-- the popped jump target and the registry afterwards -/
  | ok (j : Nat) (reg : List TNode)
  /-- "Unhandled exception" diagnostic followed by `raise (SIGABRT)` -/
  | unhandled
deriving DecidableEq, Repr

/-- `_yrt_exc_pop` (lines 119–123) with `_yrt_exc_pop_list` (lines 99–115):
look the node up without inserting; abort with "Unhandled exception" when
there is no node or no catcher; otherwise pop the top cell, and when both
the remaining stack is empty and `data` is NULL, remove the node from the
registry. -/
def exc_pop (id : Nat) (reg : List TNode) : PopRes :=
  match get_current id reg with
  | none => .unhandled
  | some n =>
    match n.stack with
    | [] => .unhandled
    | j :: rest =>
      let reg1 := update_node id (fun n => { n with stack := rest }) reg
      if rest = [] ∧ n.data = 0 then .ok j (remove_thread id reg1)
      else .ok j reg1

/-- Number of registry nodes belonging to thread `i`. -/
def countId (i : Nat) (reg : List TNode) : Nat :=
  reg.countP (fun n => n.id = i)

/-- Registry well-formedness: at most one node per thread. -/
def atMostOne (reg : List TNode) : Prop := ∀ i, countId i reg ≤ 1

end ThrowC

namespace Panic

/- ===================================================================
   src/rt/except/panic.c and src/rt/run.c — fatal-termination guards
   =================================================================== -/

/-- Observable steps of the termination paths, in program order. -/
inductive Eff : Type
  /-- set the static `terminating` flag (the guard is raised) -/
  | setTerminating
  /-- the `terminate (...): msg` diagnostic line -/
  | printTerminating (msg : String)
  /-- "terminating called recursively" -/
  | printRecursionWarning
  /-- `_yrt_exc_resolve_stack_trace (_yrt_exc_get_stack_trace ())` -/
  | resolveTrace
  /-- printing the resolved trace (only when non-empty) -/
  | printTrace
  /-- "Panic during stacktrace !" -/
  | printPanicNoTrace
  /-- "Segfault - " -/
  | printSegfault
  /-- `abort ()` -/
  | abort
deriving DecidableEq, Repr

/-- `_yrt_exc_terminate` (panic.c lines 15–30).  `terminating` is the value
of the static flag on entry; `traceNonEmpty` abstracts `trace.len != 0`.
Returns the effect sequence and the flag value afterwards. -/
def _yrt_exc_terminate (terminating : Bool) (msg : String)
    (traceNonEmpty : Bool) : List Eff × Bool :=
  if terminating then ([.printRecursionWarning, .abort], terminating)
  else
    ([.setTerminating, .printTerminating msg, .resolveTrace] ++
      (if traceNonEmpty then [.printTrace] else []) ++ [.abort], true)

/-- `_yrt_exc_panic_no_trace` (panic.c lines 33–36). -/
def _yrt_exc_panic_no_trace : List Eff :=
  [.printPanicNoTrace, .abort]

/-- `_yrt_exc_panic_seg_fault` (panic.c lines 49–58). -/
def _yrt_exc_panic_seg_fault (traceNonEmpty : Bool) : List Eff :=
  [.printSegfault, .resolveTrace] ++
    (if traceNonEmpty then [.printTrace] else []) ++ [.abort]

/-- `bt_sighandler` (run.c lines 25–38).  `first` is the value of the static
flag on entry (`0` until the first fault has been handled).  Returns the
effect sequence and the flag afterwards. -/
def bt_sighandler (first : Nat) (traceNonEmpty : Bool) : List Eff × Nat :=
  if first = 0 then (_yrt_exc_panic_seg_fault traceNonEmpty, 1)
  else (_yrt_exc_panic_no_trace, first)

end Panic

theorem W64_eq : W64 = 2 ^ 64 := by norm_num [W64]

namespace RtP

theorem bytesAt_cons {m : Mem} {p b : Nat} {bs : List Nat} :
    bytesAt m p (b :: bs) ↔ readByte m p = b ∧ bytesAt m (p + 1) bs := by
  constructor
  · intro h
    refine ⟨by simpa using h 0 (by simp), fun k hk => ?_⟩
    have := h (k + 1) (by simpa using Nat.succ_lt_succ hk)
    simpa [Nat.add_assoc, Nat.add_comm 1 k] using this
  · rintro ⟨h0, h1⟩ k hk
    cases k with
    | zero => simpa using h0
    | succ k =>
      have := h1 k (by simpa using Nat.lt_of_succ_lt_succ hk)
      simpa [Nat.add_assoc, Nat.add_comm 1 k] using this

theorem bytesAt_append {m : Mem} {p : Nat} {xs ys : List Nat} :
    bytesAt m p (xs ++ ys) ↔ bytesAt m p xs ∧ bytesAt m (p + xs.length) ys := by
  induction xs generalizing p with
  | nil => simp [bytesAt]
  | cons b bs ih =>
    simp only [List.cons_append, bytesAt_cons, ih, List.length_cons, and_assoc]
    constructor <;> intro h <;>
      simpa [Nat.add_assoc, Nat.add_comm 1 bs.length] using h

/-- Disjoint or is addition: if `r` fits below bit `s` then
`r ||| (d <<< s) = r + d * 2 ^ s`. -/
theorem lor_shiftLeft_eq_add {r s : Nat} (d : Nat) (hr : r < 2 ^ s) :
    r ||| (d <<< s) = r + d * 2 ^ s := by
  rw [Nat.shiftLeft_eq, Nat.lor_comm, Nat.mul_comm,
    ← Nat.mul_add_lt_is_or hr, Nat.add_comm]

/-- One accumulation step of the LEB128 loops: with `r < 2 ^ s` and a 7-bit
group `d`, the C statement `result |= d << shift` produces `r + d * 2 ^ s`
(no truncation occurs), and the new accumulator still fits below bit
`s + 7`. -/
theorem acc_step {r s : Nat} (d : Nat) (hr : r < 2 ^ s) (hd : d < 128)
    (hs : s + 7 ≤ 64) :
    (r ||| ((d <<< s) % W64)) % W64 = r + d * 2 ^ s ∧
      r + d * 2 ^ s < 2 ^ (s + 7) := by
  have hshift : d <<< s = d * 2 ^ s := Nat.shiftLeft_eq ..
  have h2s : 0 < 2 ^ s := Nat.pos_pow_of_pos s (by norm_num)
  have hlt : d * 2 ^ s < 2 ^ (s + 7) := by
    calc d * 2 ^ s < 128 * 2 ^ s := by exact mul_lt_mul_of_pos_right hd h2s
    _ = 2 ^ (s + 7) := by rw [Nat.pow_add]; ring
  have hle : (2 : Nat) ^ (s + 7) ≤ 2 ^ 64 := Nat.pow_le_pow_right (by norm_num) (by omega)
  have h1 : (d <<< s) % W64 = d <<< s := by
    rw [W64_eq]; exact Nat.mod_eq_of_lt (by omega)
  have hsum : r + d * 2 ^ s < 2 ^ (s + 7) := by
    have : r + d * 2 ^ s < 2 ^ s + d * 2 ^ s := by omega
    have h2 : 2 ^ s + d * 2 ^ s = (1 + d) * 2 ^ s := by ring
    have h3 : (1 + d) * 2 ^ s ≤ 128 * 2 ^ s :=
      Nat.mul_le_mul_right _ (by omega)
    have h4 : (128 : Nat) * 2 ^ s = 2 ^ (s + 7) := by rw [Nat.pow_add]; ring
    omega
  refine ⟨?_, hsum⟩
  rw [h1, lor_shiftLeft_eq_add d hr, W64_eq]
  exact Nat.mod_eq_of_lt (by omega)

/-- Bit 7 of a 7-bit group is clear. -/
theorem and128_of_lt {x : Nat} (h : x < 128) : x &&& 128 = 0 := by
  have : x &&& 128 = x &&& 2 ^ 7 := by norm_num
  rw [this, Nat.and_two_pow, Nat.testBit_lt_two_pow (by norm_num [h])]
  simp

/-- Bit 7 of a continuation byte is set. -/
theorem and128_of_cont {x : Nat} (h : x < 128) : (x + 128) &&& 128 ≠ 0 := by
  have h2 : (x + 128) &&& 128 = (x + 128) &&& 2 ^ 7 := by norm_num
  have hx : (x + 128) / 2 ^ 7 % 2 = 1 := by omega
  rw [h2, Nat.and_two_pow, Nat.testBit_to_div_mod, hx]
  norm_num

/-- Masking a byte with `0x7F` keeps the low 7-bit group. -/
theorem and127_eq (x : Nat) : x &&& 127 = x % 128 := by
  have : (127 : Nat) = 2 ^ 7 - 1 := by norm_num
  rw [this, Nat.and_pow_two_sub_one_eq_mod]

/-- Bit 6 test, arithmetically, for a terminal byte. -/
theorem and64_iff {x : Nat} (h : x < 128) : x &&& 64 ≠ 0 ↔ 64 ≤ x := by
  have h2 : x &&& 64 = x &&& 2 ^ 6 := by norm_num
  rw [h2, Nat.and_two_pow, Nat.testBit_to_div_mod]
  constructor
  · intro hx
    by_contra hlt
    have hx0 : x / 2 ^ 6 % 2 = 0 := by omega
    rw [hx0] at hx
    norm_num at hx
  · intro hx
    have hx1 : x / 2 ^ 6 % 2 = 1 := by omega
    rw [hx1]
    norm_num

theorem encodeULEB_ne_nil (v : Nat) : encodeULEB v ≠ [] := by
  rw [encodeULEB]
  split <;> simp

/-- A value below `2 ^ (7 * (k + 1))` encodes in at most `k + 1` bytes. -/
theorem encodeULEB_len_le :
    ∀ k v, v < 2 ^ (7 * (k + 1)) → (encodeULEB v).length ≤ k + 1 := by
  intro k
  induction k with
  | zero =>
    intro v hv
    rw [encodeULEB]
    have : v < 128 := by norm_num at hv; omega
    simp [this]
  | succ k ih =>
    intro v hv
    have he : 7 * (k + 1 + 1) = 7 * (k + 1) + 7 := by ring
    rw [he, Nat.pow_add] at hv
    norm_num at hv
    rw [encodeULEB]
    split
    · simp
    · have hq : v / 128 < 2 ^ (7 * (k + 1)) := by
        rw [Nat.div_lt_iff_lt_mul (by norm_num)]
        omega
      simpa using Nat.succ_le_succ (ih _ hq)

/-- Decoding the laid-out ULEB128 encoding of `v`, starting from accumulator
`r` and shift `s`, yields `r + v * 2 ^ s` and stops just past the bytes. -/
theorem uleb_loop_encode (v : Nat) : ∀ m p r s fuel,
    bytesAt m p (encodeULEB v) → r < 2 ^ s →
    s + 7 * (encodeULEB v).length ≤ 64 → (encodeULEB v).length ≤ fuel →
    uleb_loop m fuel p r s = .ok (r + v * 2 ^ s, p + (encodeULEB v).length) := by
  induction v using encodeULEB.induct with
  | case1 v hlt =>
    intro m p r s fuel hmem hr hs hfuel
    rw [encodeULEB] at hmem hs hfuel ⊢
    simp only [dif_pos hlt] at hmem hs hfuel ⊢
    obtain ⟨hb, -⟩ := bytesAt_cons.mp hmem
    match fuel, hfuel with
    | fuel + 1, _ =>
      simp only [uleb_loop, hb, and127_eq]
      have hv : v % 128 = v := Nat.mod_eq_of_lt hlt
      rw [hv]
      obtain ⟨hacc, -⟩ := acc_step v hr hlt (by simpa using hs)
      rw [hacc, if_pos (and128_of_lt hlt)]
      simp
  | case2 v hlt ih =>
    intro m p r s fuel hmem hr hs hfuel
    rw [encodeULEB] at hmem hs hfuel ⊢
    simp only [dif_neg hlt] at hmem hs hfuel ⊢
    obtain ⟨hb, htail⟩ := bytesAt_cons.mp hmem
    simp only [List.length_cons] at hs hfuel
    match fuel, hfuel with
    | fuel + 1, hfuel =>
      simp only [uleb_loop, hb, and127_eq]
      have hmod : (v % 128 + 128) % 128 = v % 128 := by omega
      rw [hmod]
      obtain ⟨hacc, hlt7⟩ :=
        acc_step (v % 128) hr (Nat.mod_lt _ (by norm_num)) (by omega)
      rw [hacc, if_neg (and128_of_cont (Nat.mod_lt _ (by norm_num)))]
      rw [ih m (p + 1) _ _ fuel htail hlt7 (by omega) (by omega)]
      have hsplit : v % 128 + 128 * (v / 128) = v := Nat.mod_add_div v 128
      have hpow : (2 : Nat) ^ (s + 7) = 2 ^ s * 128 := by rw [Nat.pow_add]
      have hval : r + v % 128 * 2 ^ s + v / 128 * 2 ^ (s + 7) = r + v * 2 ^ s := by
        rw [Nat.add_assoc]
        congr 1
        calc v % 128 * 2 ^ s + v / 128 * 2 ^ (s + 7)
            = (v % 128 + 128 * (v / 128)) * 2 ^ s := by rw [hpow]; ring
        _ = v * 2 ^ s := by rw [hsplit]
      have hcur : p + 1 + (encodeULEB (v / 128)).length =
          p + ((encodeULEB (v / 128)).length + 1) := by omega
      rw [hval, hcur, List.length_cons]

/-- The quotient appearing in `encodeSLEB` is the floor division `v / 128`
(`/` and `%` on `Int` are Euclidean here, which agree with floor for the
positive divisor 128). -/
theorem encodeSLEB_q (v : Int) : (v - v % 128) / 128 = v / 128 := by
  have h : v - v % 128 = 128 * (v / 128) := by
    have := Int.ediv_add_emod v 128
    omega
  rw [h, Int.mul_ediv_cancel_left _ (by norm_num)]

/-- Every encoded value lies in the two's-complement range of its length. -/
theorem encodeSLEB_range (v : Int) :
    -(128 ^ (encodeSLEB v).length) ≤ v ∧ v < 128 ^ (encodeSLEB v).length := by
  induction v using encodeSLEB.induct with
  | case1 v hdone =>
    rw [encodeSLEB, if_pos hdone]
    rw [encodeSLEB_q] at hdone
    have hm := Int.emod_nonneg v (by norm_num : (128 : Int) ≠ 0)
    have hm2 := Int.emod_lt_of_pos v (by norm_num : (0 : Int) < 128)
    have hv := Int.ediv_add_emod v 128
    simp only [List.length_singleton, pow_one]
    omega
  | case2 v hdone ih =>
    rw [encodeSLEB, if_neg hdone]
    rw [encodeSLEB_q] at ih ⊢
    have hv := Int.ediv_add_emod v 128
    have hm := Int.emod_nonneg v (by norm_num : (128 : Int) ≠ 0)
    have hm2 := Int.emod_lt_of_pos v (by norm_num : (0 : Int) < 128)
    simp only [List.length_cons, pow_succ]
    have hpow : (128 : Int) ^ ((encodeSLEB (v / 128)).length + 1) =
        128 ^ (encodeSLEB (v / 128)).length * 128 := pow_succ ..
    obtain ⟨ih1, ih2⟩ := ih
    constructor <;> nlinarith [ih1, ih2]

/-- A value in `[-64 * 128 ^ k, 64 * 128 ^ k)` encodes in at most `k + 1`
bytes. -/
theorem encodeSLEB_len_le :
    ∀ k (v : Int), -(64 * 128 ^ k) ≤ v → v < 64 * 128 ^ k →
      (encodeSLEB v).length ≤ k + 1 := by
  intro k
  induction k with
  | zero =>
    intro v h1 h2
    norm_num at h1 h2
    rw [encodeSLEB]
    rw [encodeSLEB_q]
    have hv := Int.ediv_add_emod v 128
    have hm := Int.emod_nonneg v (by norm_num : (128 : Int) ≠ 0)
    have hm2 := Int.emod_lt_of_pos v (by norm_num : (0 : Int) < 128)
    have hdone : v / 128 = 0 ∧ (v % 128).toNat < 64 ∨
        v / 128 = -1 ∧ 64 ≤ (v % 128).toNat := by omega
    rw [if_pos hdone]
    simp
  | succ k ih =>
    intro v h1 h2
    rw [encodeSLEB]
    rw [encodeSLEB_q]
    split
    · simp
    · have hv := Int.ediv_add_emod v 128
      have hm := Int.emod_nonneg v (by norm_num : (128 : Int) ≠ 0)
      have hm2 := Int.emod_lt_of_pos v (by norm_num : (0 : Int) < 128)
      have hpow : (64 : Int) * 128 ^ (k + 1) = 128 * (64 * 128 ^ k) := by ring
      rw [hpow] at h1 h2
      have hq1 : -(64 * 128 ^ k) ≤ v / 128 := by omega
      have hq2 : v / 128 < 64 * 128 ^ k := by omega
      simpa using Nat.succ_le_succ (ih _ hq1 hq2)

/-- Decoding the laid-out SLEB128 encoding of `v`, starting from accumulator
`r` and shift `s`: the result is the two's-complement pattern of `v`
(relative to the final shift), sign-extended to 64 bits when `v < 0`. -/
theorem sleb_loop_encode (v : Int) : ∀ m p r s fuel,
    bytesAt m p (encodeSLEB v) → r < 2 ^ s →
    s + 7 * (encodeSLEB v).length < 64 → (encodeSLEB v).length ≤ fuel →
    sleb_loop m fuel p r s = .ok
      ((if 0 ≤ v then r + v.toNat * 2 ^ s
        else r + (v + 128 ^ (encodeSLEB v).length).toNat * 2 ^ s
               + (W64 - 2 ^ (s + 7 * (encodeSLEB v).length))),
       p + (encodeSLEB v).length) := by
  induction v using encodeSLEB.induct with
  | case1 v hdone =>
    intro m p r s fuel hmem hr hs hfuel
    rw [encodeSLEB, if_pos hdone] at hmem hs hfuel ⊢
    rw [encodeSLEB_q] at hdone
    have hv := Int.ediv_add_emod v 128
    have hm := Int.emod_nonneg v (by norm_num : (128 : Int) ≠ 0)
    have hm2 := Int.emod_lt_of_pos v (by norm_num : (0 : Int) < 128)
    simp only [List.length_singleton] at hs hfuel ⊢
    obtain ⟨hb, -⟩ := bytesAt_cons.mp hmem
    have hblt : (v % 128).toNat < 128 := by omega
    match fuel, hfuel with
    | fuel + 1, _ =>
      simp only [sleb_loop, hb, and127_eq]
      have hbmod : (v % 128).toNat % 128 = (v % 128).toNat := Nat.mod_eq_of_lt hblt
      rw [hbmod]
      obtain ⟨hacc, hlt7⟩ := acc_step _ hr hblt (by omega)
      rw [hacc, if_pos (and128_of_lt hblt)]
      rcases hdone with ⟨hq0, hblo⟩ | ⟨hqm1, hbhi⟩
      · have hnot : ¬(s + 7 < 64 ∧ (v % 128).toNat &&& 64 ≠ 0) := by
          rintro ⟨-, h64⟩
          rw [and64_iff hblt] at h64
          omega
        rw [if_neg hnot]
        have hvnn : 0 ≤ v := by omega
        rw [if_pos hvnn]
        have hvt : v.toNat = (v % 128).toNat := by omega
        rw [hvt]
      · have hyes : s + 7 < 64 ∧ (v % 128).toNat &&& 64 ≠ 0 :=
          ⟨by omega, (and64_iff hblt).mpr hbhi⟩
        rw [if_pos hyes]
        have hneg : ¬(0 ≤ v) := by omega
        rw [if_neg hneg]
        have hW : W64 - 2 ^ (s + 7) = (2 ^ (64 - (s + 7)) - 1) <<< (s + 7) := by
          rw [Nat.shiftLeft_eq, W64_eq]
          have h1 : (2 : Nat) ^ (64 - (s + 7)) * 2 ^ (s + 7) = 2 ^ 64 := by
            rw [← Nat.pow_add]
            congr 1
            omega
          have h2 : (1 : Nat) * 2 ^ (s + 7) ≤ 2 ^ (64 - (s + 7)) * 2 ^ (s + 7) := by
            apply Nat.mul_le_mul_right
            exact Nat.one_le_two_pow
          rw [Nat.sub_mul]
          omega
        have hlor : (r + (v % 128).toNat * 2 ^ s) ||| (W64 - 2 ^ (s + 7)) =
            r + (v % 128).toNat * 2 ^ s + (W64 - 2 ^ (s + 7)) := by
          calc (r + (v % 128).toNat * 2 ^ s) ||| (W64 - 2 ^ (s + 7))
              = (r + (v % 128).toNat * 2 ^ s) |||
                  ((2 ^ (64 - (s + 7)) - 1) <<< (s + 7)) := by rw [hW]
            _ = r + (v % 128).toNat * 2 ^ s +
                  (2 ^ (64 - (s + 7)) - 1) * 2 ^ (s + 7) :=
                lor_shiftLeft_eq_add _ hlt7
            _ = r + (v % 128).toNat * 2 ^ s + (W64 - 2 ^ (s + 7)) := by
                rw [← Nat.shiftLeft_eq (2 ^ (64 - (s + 7)) - 1) (s + 7), ← hW]
        rw [hlor]
        have hlt : r + (v % 128).toNat * 2 ^ s + (W64 - 2 ^ (s + 7)) < W64 := by
          have : (2 : Nat) ^ (s + 7) ≤ 2 ^ 64 :=
            Nat.pow_le_pow_right (by norm_num) (by omega)
          rw [W64_eq]
          omega
        rw [Nat.mod_eq_of_lt hlt]
        have hvt : (v + 128 ^ 1).toNat = (v % 128).toNat := by
          simp only [pow_one]
          omega
        rw [hvt]
  | case2 v hdone ih =>
    intro m p r s fuel hmem hr hs hfuel
    rw [encodeSLEB, if_neg hdone] at hmem hs hfuel ⊢
    rw [encodeSLEB_q] at ih hmem hs hfuel ⊢
    have hv := Int.ediv_add_emod v 128
    have hm := Int.emod_nonneg v (by norm_num : (128 : Int) ≠ 0)
    have hm2 := Int.emod_lt_of_pos v (by norm_num : (0 : Int) < 128)
    simp only [List.length_cons] at hs hfuel ⊢
    obtain ⟨hb, htail⟩ := bytesAt_cons.mp hmem
    have hblt : (v % 128).toNat < 128 := by omega
    match fuel, hfuel with
    | fuel + 1, hfuel =>
      simp only [sleb_loop, hb, and127_eq]
      have hbmod : ((v % 128).toNat + 128) % 128 = (v % 128).toNat := by omega
      rw [hbmod]
      obtain ⟨hacc, hlt7⟩ := acc_step _ hr hblt (by omega)
      rw [hacc, if_neg (and128_of_cont hblt)]
      rw [ih m (p + 1) _ _ fuel htail hlt7 (by omega) (by omega)]
      set L := (encodeSLEB (v / 128)).length with hL
      have hpows : (2 : Nat) ^ (s + 7) = 2 ^ s * 128 := by rw [Nat.pow_add]
      have hcur : p + 1 + L = p + (L + 1) := by omega
      by_cases hq : 0 ≤ v / 128
      · have hvnn : 0 ≤ v := by omega
        rw [if_pos hq, if_pos hvnn, hcur]
        have hval : r + (v % 128).toNat * 2 ^ s + (v / 128).toNat * 2 ^ (s + 7) =
            r + v.toNat * 2 ^ s := by
          have hsplit : v.toNat = (v % 128).toNat + 128 * (v / 128).toNat := by omega
          rw [hsplit, hpows]
          ring
        rw [hval]
      · have hvneg : ¬(0 ≤ v) := by omega
        rw [if_neg hq, if_neg hvneg, hcur]
        obtain ⟨hrange, -⟩ := encodeSLEB_range (v / 128)
        rw [← hL] at hrange
        have hexp : s + 7 + 7 * L = s + 7 * (L + 1) := by ring
        rw [hexp]
        have hsplit : (v + 128 ^ (L + 1)).toNat =
            (v % 128).toNat + 128 * (v / 128 + 128 ^ L).toNat := by
          have hps : (128 : Int) ^ (L + 1) = 128 * 128 ^ L := pow_succ' ..
          omega
        have hval : r + (v % 128).toNat * 2 ^ s +
              ((v / 128 + 128 ^ L).toNat * 2 ^ (s + 7) + (W64 - 2 ^ (s + 7 * (L + 1)))) =
            r + (v + 128 ^ (L + 1)).toNat * 2 ^ s + (W64 - 2 ^ (s + 7 * (L + 1))) := by
          rw [hsplit, hpows]
          ring
        rw [← hval]
        ring_nf

/-- ULEB128 round-trip: decoding the encoding of `v < 2 ^ 32` recovers `v`
and advances the cursor exactly past the encoded bytes. -/
theorem read_uleb128_encode {v : Nat} (m : Mem) (p fuel : Nat)
    (hv : v < 2 ^ 32) (hmem : bytesAt m p (encodeULEB v))
    (hfuel : (encodeULEB v).length ≤ fuel) :
    read_uleb128 fuel m p = .ok (v, p + (encodeULEB v).length) := by
  have hlen : (encodeULEB v).length ≤ 5 :=
    encodeULEB_len_le 4 v (lt_of_lt_of_le hv (by norm_num))
  have := uleb_loop_encode v m p 0 0 fuel hmem (by norm_num) (by omega) hfuel
  simpa [read_uleb128] using this

/-- SLEB128 round-trip: decoding the encoding of a signed `v` in
`[-2 ^ 32, 2 ^ 32)` yields a 64-bit pattern whose signed reading is `v`,
with the cursor advanced exactly past the encoded bytes. -/
theorem read_sleb128_encode {v : Int} (m : Mem) (p fuel : Nat)
    (h1 : -(2 ^ 32) ≤ v) (h2 : v < 2 ^ 32)
    (hmem : bytesAt m p (encodeSLEB v))
    (hfuel : (encodeSLEB v).length ≤ fuel) :
    ∃ n, read_sleb128 fuel m p = .ok (n, p + (encodeSLEB v).length) ∧
      toSigned64 n = v := by
  have hL5 : (encodeSLEB v).length ≤ 5 := by
    have := encodeSLEB_len_le 4 v (by norm_num; omega) (by norm_num; omega)
    omega
  have hloop := sleb_loop_encode v m p 0 0 fuel hmem (by norm_num) (by omega) hfuel
  rw [read_sleb128, hloop]
  set L := (encodeSLEB v).length with hLdef
  refine ⟨_, rfl, ?_⟩
  have hpowLe : (2 : Nat) ^ (7 * L) ≤ 2 ^ 35 :=
    Nat.pow_le_pow_right (by norm_num) (by omega)
  by_cases hv : 0 ≤ v
  · rw [if_pos hv]
    have hlt : v.toNat * 2 ^ 0 < 2 ^ 63 := by
      have : v.toNat < 2 ^ 32 := by omega
      simpa using lt_trans this (by norm_num)
    rw [toSigned64, if_pos (by simpa using hlt)]
    simp [Int.toNat_of_nonneg hv]
  · rw [if_neg hv]
    simp only [zero_add]
    obtain ⟨hrange, -⟩ := encodeSLEB_range v
    rw [← hLdef] at hrange
    have hA : ((v + 128 ^ L).toNat : Int) = v + 128 ^ L :=
      Int.toNat_of_nonneg (by omega)
    have hcast : ((128 : Int) ^ L) = ((2 ^ (7 * L) : Nat) : Int) := by
      push_cast
      rw [show ((128 : Int)) = 2 ^ 7 by norm_num, ← pow_mul]
    have hsub : (2 : Nat) ^ (7 * L) ≤ W64 := by
      rw [W64_eq]
      exact Nat.pow_le_pow_right (by norm_num) (by omega)
    have hn : (((v + 128 ^ L).toNat * 2 ^ 0 + (W64 - 2 ^ (7 * L)) : Nat) : Int) =
        v + (W64 : Int) := by
      push_cast [Nat.cast_sub hsub]
      rw [mul_one]
      rw [hA, hcast]
      push_cast
      ring_nf
    have hbig : ¬((v + 128 ^ L).toNat * 2 ^ 0 + (W64 - 2 ^ (7 * L)) < 2 ^ 63) := by
      intro hlt
      have h63 : ((2 : Nat) ^ 63 : Int) < (W64 : Int) - 2 ^ 32 := by
        rw [W64_eq]; norm_num
      have := hn
      omega
    rw [toSigned64, if_neg hbig, hn]
    ring

/-- **C6** (`_yrt_exc_read_uleb128`, `_yrt_exc_read_sleb128`,
src/rt/except/personnality.c lines 78–117): for every unsigned `v` in
`[0, 2^32)`, decoding the ULEB128 encoding of `v` yields `v` and advances
the cursor exactly past the encoded bytes; likewise every signed integer in
range round-trips through SLEB128, the decoder sign-extending exactly when
the terminal byte's continuation bit (bit 7) is clear and the sign bit
(bit 6) of the last group is set — the sign-extension branch of
`read_sleb128` / `sleb_loop` fires under precisely that test. -/
theorem c6_leb128_round_trip :
    (∀ (v : Nat) (m : Mem) (p fuel : Nat),
      v < 2 ^ 32 → bytesAt m p (encodeULEB v) → (encodeULEB v).length ≤ fuel →
      read_uleb128 fuel m p = .ok (v, p + (encodeULEB v).length)) ∧
    (∀ (v : Int) (m : Mem) (p fuel : Nat),
      -(2 ^ 32) ≤ v → v < 2 ^ 32 → bytesAt m p (encodeSLEB v) →
      (encodeSLEB v).length ≤ fuel →
      ∃ n, read_sleb128 fuel m p = .ok (n, p + (encodeSLEB v).length) ∧
        toSigned64 n = v) :=
  ⟨fun _ m p fuel hv hmem hfuel => read_uleb128_encode m p fuel hv hmem hfuel,
   fun _ m p fuel h1 h2 hmem hfuel => read_sleb128_encode m p fuel h1 h2 hmem hfuel⟩

/-- Witness for C6 at `v = 300` (ULEB128) and `v = -2` (SLEB128). -/
theorem c6_leb128_round_trip_witness :
    read_uleb128 9 w6mem 0 = .ok (300, 0 + 2) ∧
    ∃ n, read_sleb128 9 w6mem 2 = .ok (n, 2 + 1) ∧ toSigned64 n = -2 := by
  have henc : encodeULEB 300 = [172, 2] := by
    rw [encodeULEB]
    norm_num
    rw [encodeULEB]
    norm_num
  have hsenc : encodeSLEB (-2) = [126] := by
    rw [encodeSLEB]
    norm_num
    decide
  constructor
  · have h := c6_leb128_round_trip.1 300 w6mem 0 9 (by norm_num)
      (by rw [henc]; decide) (by rw [henc]; norm_num)
    rwa [henc] at h
  · have h := c6_leb128_round_trip.2 (-2) w6mem 2 9 (by norm_num) (by norm_num)
      (by rw [hsenc]; decide) (by rw [hsenc]; norm_num)
    rwa [hsenc] at h

/-- Reducing a bind of a known-successful `Except` computation. -/
theorem ok_bind {α β : Type} (a : α) (f : α → Except EFail β) :
    (Except.ok a >>= f) = f a := rfl

/-- A failed `Except` computation short-circuits the bind. -/
theorem error_bind {α β : Type} (e : EFail) (f : α → Except EFail β) :
    ((Except.error e : Except EFail α) >>= f) = .error e := rfl

/-- Reading with `CSEncoding = DW_EH_PE_uleb128` (encoding byte 1) and a
null context is exactly a ULEB128 read. -/
theorem read_encoded_value_uleb {v : Nat} (fuel : Nat) (m : Mem) (p : Nat)
    (hv : v < 2 ^ 32) (hmem : bytesAt m p (encodeULEB v))
    (hfuel : (encodeULEB v).length ≤ fuel) :
    read_encoded_value fuel m none 0x01 p =
      .ok (v, p + (encodeULEB v).length) := by
  rw [read_encoded_value]
  have hbase : base_of_encoded_value 0x01 none = .ok 0 := rfl
  have hr := read_uleb128_encode m p fuel hv hmem hfuel
  rw [hbase]
  simp only [ok_bind]
  rw [read_encoded_value_with_base,
    if_neg (by norm_num : ¬((0x01 : Nat) = 0x50))]
  simp only [show (0x01 : Nat) &&& 0x0f = 0x01 by norm_num, hr, ok_bind, bind,
    Except.bind]
  by_cases hv0 : v = 0
  · subst hv0
    simp
  · rw [if_pos (by simpa using hv0),
      if_neg (by norm_num : ¬((0x01 : Nat) &&& 0x70 = 0x10))]
    have hadd : add64 v 0 = v := by
      rw [add64, Nat.add_zero, Nat.mod_eq_of_lt (by rw [W64_eq]; omega)]
    rw [hadd, if_neg (by norm_num : ¬((0x01 : Nat) &&& 0x80 ≠ 0))]

/-- The call-site loop on a ULEB128-encoded table computes exactly the
selection rule. -/
theorem cs_loop_encoded :
    ∀ (es : List (Nat × Nat × Nat × Nat)) (m : Mem)
      (p lp start ip LPStart actionTable fuel : Nat) (ar : Option Nat),
    bytesAt m p (encodeTable es) →
    actionTable = p + (encodeTable es).length →
    tableSmall es →
    (encodeTable es).length + 2 ≤ fuel →
    cs_loop m 0x01 start ip LPStart actionTable fuel p lp ar =
      .ok (selectCallSite start ip LPStart actionTable es (lp, ar)) := by
  intro es
  induction es with
  | nil =>
    intro m p lp start ip LPStart actionTable fuel ar hmem hat hsmall hfuel
    have hlen : (encodeTable []).length = 0 := rfl
    rw [hlen] at hat
    match fuel, hfuel with
    | fuel + 1, _ =>
      rw [cs_loop, if_neg (by omega), selectCallSite]
  | cons e rest ih =>
    intro m p lp start ip LPStart actionTable fuel ar hmem hat hsmall hfuel
    obtain ⟨s, l, lpad, act⟩ := e
    have htab : encodeTable ((s, l, lpad, act) :: rest) =
        encodeEntry (s, l, lpad, act) ++ encodeTable rest := by
      rw [encodeTable, List.map_cons, List.flatten_cons, encodeTable]
    rw [htab] at hmem hat hfuel
    rw [List.length_append] at hat hfuel
    obtain ⟨hsm, hrest⟩ := bytesAt_append.mp hmem
    have hee : encodeEntry (s, l, lpad, act) =
        encodeULEB s ++ (encodeULEB l ++ (encodeULEB lpad ++ encodeULEB act)) := by
      rw [encodeEntry, List.append_assoc, List.append_assoc]
    rw [hee] at hsm
    obtain ⟨h1, hsm⟩ := bytesAt_append.mp hsm
    obtain ⟨h2, hsm⟩ := bytesAt_append.mp hsm
    obtain ⟨h3, h4⟩ := bytesAt_append.mp hsm
    obtain ⟨hs1', hs2', hs3', hs4'⟩ := hsmall _ (List.mem_cons_self ..)
    have hs1 : s < 2 ^ 32 := hs1'
    have hs2 : l < 2 ^ 32 := hs2'
    have hs3 : lpad < 2 ^ 32 := hs3'
    have hs4 : act < 2 ^ 32 := hs4'
    have hlen : (encodeEntry (s, l, lpad, act)).length =
        (encodeULEB s).length + (encodeULEB l).length +
        (encodeULEB lpad).length + (encodeULEB act).length := by
      rw [encodeEntry]
      simp only [List.length_append]
    have hposs : 0 < (encodeULEB s).length := by
      cases h : encodeULEB s with
      | nil => exact absurd h (encodeULEB_ne_nil s)
      | cons a b => simp
    match fuel, hfuel with
    | fuel + 1, hfuel =>
      rw [cs_loop, if_pos (by omega)]
      simp only [read_encoded_value_uleb fuel m p hs1 h1 (by omega),
        read_encoded_value_uleb fuel m _ hs2 h2 (by omega),
        read_encoded_value_uleb fuel m _ hs3 h3 (by omega),
        read_uleb128_encode m _ fuel hs4 h4 (by omega),
        ok_bind, bind, Except.bind]
      rw [selectCallSite]
      by_cases hc1 : ip < start + s
      · rw [if_pos hc1, if_pos hc1]
        match fuel, hfuel with
        | fuel + 1, _ =>
          rw [cs_loop, if_neg (by omega)]
      · rw [if_neg hc1, if_neg hc1]
        by_cases hc2 : ip < start + s + l
        · rw [if_pos hc2, if_pos hc2]
        · rw [if_neg hc2, if_neg hc2]
          have hp' : p + (encodeULEB s).length + (encodeULEB l).length +
              (encodeULEB lpad).length + (encodeULEB act).length =
              p + (encodeEntry (s, l, lpad, act)).length := by
            rw [hlen]
            omega
          rw [hp']
          apply ih
          · exact hrest
          · omega
          · intro x hx
            exact hsmall x (List.mem_cons_of_mem _ hx)
          · omega

theorem c3_table_small {L1 A1 L2 : Nat} (h1 : L1 < 2 ^ 32) (h2 : A1 < 2 ^ 32)
    (h3 : L2 < 2 ^ 32) : tableSmall (c3_table L1 A1 L2) := by
  intro e he
  simp only [c3_table, List.mem_cons, List.not_mem_nil, or_false] at he
  rcases he with h | h | h <;> subst h <;>
    exact ⟨by norm_num, by norm_num, by simpa, by simpa⟩

theorem encodeULEB_len_small {v : Nat} (h : v < 128) :
    (encodeULEB v).length = 1 := by
  rw [encodeULEB, dif_pos h, List.length_singleton]

theorem c3_tablen_le {L1 A1 L2 : Nat} (h1 : L1 < 2 ^ 32) (h2 : A1 < 2 ^ 32)
    (h3 : L2 < 2 ^ 32) : (encodeTable (c3_table L1 A1 L2)).length ≤ 60 := by
  have e0 : (encodeULEB 0).length = 1 := encodeULEB_len_small (by norm_num)
  have e5 : (encodeULEB 5).length = 1 := encodeULEB_len_small (by norm_num)
  have e8 : (encodeULEB 8).length = 1 := encodeULEB_len_small (by norm_num)
  have e10 : (encodeULEB 10).length = 1 := encodeULEB_len_small (by norm_num)
  have e15 : (encodeULEB 15).length = 1 := encodeULEB_len_small (by norm_num)
  have eL1 : (encodeULEB L1).length ≤ 5 :=
    encodeULEB_len_le 4 L1 (lt_of_lt_of_le h1 (by norm_num))
  have eA1 : (encodeULEB A1).length ≤ 5 :=
    encodeULEB_len_le 4 A1 (lt_of_lt_of_le h2 (by norm_num))
  have eL2 : (encodeULEB L2).length ≤ 5 :=
    encodeULEB_len_le 4 L2 (lt_of_lt_of_le h3 (by norm_num))
  rw [c3_table, encodeTable]
  simp only [List.map_cons, List.map_nil, List.flatten_cons, List.flatten_nil,
    List.length_append, List.length_nil, encodeEntry]
  omega

theorem bytesAt_congr {m : Mem} {p q : Nat} {bs : List Nat}
    (h : bytesAt m p bs) (hpq : q = p) : bytesAt m q bs := hpq ▸ h

theorem c3_scan_reduce (L1 A1 L2 : Nat) (m : Mem)
    (b start trb drb ip0 cfa fuel lp actions : Nat) (before : Bool)
    (hmem : bytesAt m b (c3_blob L1 A1 L2))
    (h1 : L1 < 2 ^ 32) (h2 : A1 < 2 ^ 32) (h3 : L2 < 2 ^ 32)
    (hfuel : 100 ≤ fuel)
    (hsel : selectCallSite start (if before then ip0 else ip0 - 1) start
        (b + 3 + (encodeULEB (encodeTable (c3_table L1 A1 L2)).length).length
          + (encodeTable (c3_table L1 A1 L2)).length)
        (c3_table L1 A1 L2) (0, none) = (lp, none)) :
    _yrt_exc_scan_lsda fuel m (some b) actions
        (some ⟨start, trb, drb, ip0, before, some b, cfa⟩) cfa 0 0 =
      .ok (if actions &&& 0x01 ≠ 0 then ⟨8, lp, 0, none, none⟩
           else ⟨0, lp, 0, none, none⟩) := by
  rw [c3_blob] at hmem
  obtain ⟨hhdr2, htab⟩ := bytesAt_append.mp hmem
  obtain ⟨hhdr, hul⟩ := bytesAt_append.mp hhdr2
  obtain ⟨hb0, hhdr⟩ := bytesAt_cons.mp hhdr
  obtain ⟨hb1, hhdr⟩ := bytesAt_cons.mp hhdr
  obtain ⟨hb2, -⟩ := bytesAt_cons.mp hhdr
  have hb2' : readByte m (b + 2) = 1 := hb2
  have hul' : bytesAt m (b + 3)
      (encodeULEB (encodeTable (c3_table L1 A1 L2)).length) :=
    bytesAt_congr hul (by simp)
  have htab' : bytesAt m
      (b + 3 + (encodeULEB (encodeTable (c3_table L1 A1 L2)).length).length)
      (encodeTable (c3_table L1 A1 L2)) :=
    bytesAt_congr htab (by simp [List.length_append]; omega)
  have htablen_le := c3_tablen_le h1 h2 h3
  have htablen32 : (encodeTable (c3_table L1 A1 L2)).length < 2 ^ 32 := by
    have : (2 : Nat) ^ 32 = 4294967296 := by norm_num
    omega
  have hulen : (encodeULEB (encodeTable (c3_table L1 A1 L2)).length).length ≤ 5 :=
    encodeULEB_len_le 4 _ (by norm_num; omega)
  have hulread := read_uleb128_encode m (b + 3) fuel htablen32 hul' (by omega)
  have hloop := cs_loop_encoded (c3_table L1 A1 L2) m
    (b + 3 + (encodeULEB (encodeTable (c3_table L1 A1 L2)).length).length)
    0 start (if before then ip0 else ip0 - 1) start
    (b + 3 + (encodeULEB (encodeTable (c3_table L1 A1 L2)).length).length
      + (encodeTable (c3_table L1 A1 L2)).length)
    fuel none htab' rfl (c3_table_small h1 h2 h3) (by omega)
  rw [hsel] at hloop
  rw [_yrt_exc_scan_lsda]
  simp [hb0, hb1, hb2', hulread, hloop, ok_bind, bind, Except.bind, pure,
    Except.pure, base_of_encoded_value, apply_ite]

/-- **C3** (`_yrt_exc_scan_lsda` call-site walk, src/rt/except/personnality.c
lines 277–290 within 235–314): the call-site loop selects, in table order,
the unique entry whose `[start + s, start + s + l)` interval covers the
instruction pointer (adjusted by −1 when the unwinder reports it as a return
address), reporting continue-unwinding when none covers it — stated in
general as equivalence with the selection rule `selectCallSite`, and
concretely for the table `[(0,10,L1,A1), (10,5,0,0), (15,8,L2,0)]`:
an ip in `[10,15)` yields landing pad 0, hence continue-unwinding in both
phases; in `[15,23)` landing pad `L2` with no action record (cleanup-only,
installed in the cleanup phase); in `[0,10)` landing pad `L1` with action
record `A1`; outside `[0,23)` continue-unwinding. -/
theorem c3_call_site_lookup :
    (∀ (es : List (Nat × Nat × Nat × Nat)) (m : Mem)
        (p lp start ip LPStart actionTable fuel : Nat) (ar : Option Nat),
      bytesAt m p (encodeTable es) →
      actionTable = p + (encodeTable es).length →
      tableSmall es →
      (encodeTable es).length + 2 ≤ fuel →
      cs_loop m 0x01 start ip LPStart actionTable fuel p lp ar =
        .ok (selectCallSite start ip LPStart actionTable es (lp, ar))) ∧
    (∀ (L1 A1 L2 : Nat) (m : Mem)
        (b start trb drb ip0 cfa fuel hdrAddr : Nat) (before : Bool)
        (hdr : HeaderSaved) (ip AT : Nat),
      bytesAt m b (c3_blob L1 A1 L2) →
      0 < L1 → L1 < 2 ^ 32 → 0 < A1 → A1 < 2 ^ 32 → 0 < L2 → L2 < 2 ^ 32 →
      100 ≤ fuel →
      ip = (if before then ip0 else ip0 - 1) →
      AT = b + 3 + (encodeULEB (encodeTable (c3_table L1 A1 L2)).length).length
        + (encodeTable (c3_table L1 A1 L2)).length →
      ((start + 10 ≤ ip → ip < start + 15 →
        _yrt_exc_scan_lsda fuel m (some b) 1
            (some ⟨start, trb, drb, ip0, before, some b, cfa⟩) cfa 0 0 =
          .ok ⟨8, 0, 0, none, none⟩ ∧
        _yrt_exc_personality fuel m 1 hdrAddr hdr
            (some ⟨start, trb, drb, ip0, before, some b, cfa⟩) =
          .ok ⟨8, none, none, none, none⟩ ∧
        _yrt_exc_personality fuel m 2 hdrAddr hdr
            (some ⟨start, trb, drb, ip0, before, some b, cfa⟩) =
          .ok ⟨8, none, none, none, none⟩) ∧
       (start + 15 ≤ ip → ip < start + 23 →
        _yrt_exc_scan_lsda fuel m (some b) 2
            (some ⟨start, trb, drb, ip0, before, some b, cfa⟩) cfa 0 0 =
          .ok ⟨0, start + L2, 0, none, none⟩ ∧
        _yrt_exc_personality fuel m 2 hdrAddr hdr
            (some ⟨start, trb, drb, ip0, before, some b, cfa⟩) =
          .ok ⟨7, some hdrAddr, some 0, some (start + L2), none⟩) ∧
       (start ≤ ip → ip < start + 10 →
        cs_loop m 0x01 start ip start AT fuel
            (b + 3 +
              (encodeULEB (encodeTable (c3_table L1 A1 L2)).length).length)
            0 none =
          .ok (start + L1, some (AT + A1 - 1))) ∧
       ((ip < start ∨ start + 23 ≤ ip) →
        _yrt_exc_scan_lsda fuel m (some b) 1
            (some ⟨start, trb, drb, ip0, before, some b, cfa⟩) cfa 0 0 =
          .ok ⟨8, 0, 0, none, none⟩))) := by
  refine ⟨cs_loop_encoded, ?_⟩
  intro L1 A1 L2 m b start trb drb ip0 cfa fuel hdrAddr before hdr ip AT
  intro hmem hL1 h1 hA1 h2 hL2 h3 hfuel hip hAT
  subst hip
  subst hAT
  refine ⟨?_, ?_, ?_, ?_⟩
  · intro hlo hhi
    have hsel : selectCallSite start (if before then ip0 else ip0 - 1) start
        (b + 3 + (encodeULEB (encodeTable (c3_table L1 A1 L2)).length).length
          + (encodeTable (c3_table L1 A1 L2)).length)
        (c3_table L1 A1 L2) (0, none) = (0, none) := by
      rw [c3_table]
      rw [selectCallSite, if_neg (by omega), if_neg (by omega)]
      rw [selectCallSite, if_neg (by omega), if_pos (by omega)]
      simp
    have hscan1 := c3_scan_reduce L1 A1 L2 m b start trb drb ip0 cfa fuel 0 1
      before hmem h1 h2 h3 hfuel hsel
    have hscan2 := c3_scan_reduce L1 A1 L2 m b start trb drb ip0 cfa fuel 0 2
      before hmem h1 h2 h3 hfuel hsel
    norm_num at hscan1 hscan2
    refine ⟨hscan1, ?_, ?_⟩
    · rw [_yrt_exc_personality, if_neg (by decide)]
      simp [hscan1, ok_bind, bind, Except.bind]
    · rw [_yrt_exc_personality, if_neg (by decide)]
      simp [hscan2, ok_bind, bind, Except.bind, personality_tail]
  · intro hlo hhi
    have hsel : selectCallSite start (if before then ip0 else ip0 - 1) start
        (b + 3 + (encodeULEB (encodeTable (c3_table L1 A1 L2)).length).length
          + (encodeTable (c3_table L1 A1 L2)).length)
        (c3_table L1 A1 L2) (0, none) = (start + L2, none) := by
      rw [c3_table]
      rw [selectCallSite, if_neg (by omega), if_neg (by omega)]
      rw [selectCallSite, if_neg (by omega), if_neg (by omega)]
      rw [selectCallSite, if_neg (by omega), if_pos (by omega)]
      rw [if_pos (by omega : L2 ≠ 0)]
      simp
    have hscan2 := c3_scan_reduce L1 A1 L2 m b start trb drb ip0 cfa fuel
      (start + L2) 2 before hmem h1 h2 h3 hfuel hsel
    norm_num at hscan2
    refine ⟨hscan2, ?_⟩
    rw [_yrt_exc_personality, if_neg (by decide)]
    simp only [ok_bind, bind, Except.bind, hscan2]
    norm_num
    rw [personality_tail, if_neg (by omega)]
  · intro hlo hhi
    have hsel : selectCallSite start (if before then ip0 else ip0 - 1) start
        (b + 3 + (encodeULEB (encodeTable (c3_table L1 A1 L2)).length).length
          + (encodeTable (c3_table L1 A1 L2)).length)
        (c3_table L1 A1 L2) (0, none) =
        (start + L1,
         some (b + 3 +
            (encodeULEB (encodeTable (c3_table L1 A1 L2)).length).length
            + (encodeTable (c3_table L1 A1 L2)).length + A1 - 1)) := by
      rw [c3_table]
      rw [selectCallSite, if_neg (by omega), if_pos (by omega)]
      rw [if_pos (by omega : L1 ≠ 0), if_pos (by omega : A1 ≠ 0)]
    rw [c3_blob] at hmem
    obtain ⟨hhdr2, htab⟩ := bytesAt_append.mp hmem
    have htab' : bytesAt m
        (b + 3 + (encodeULEB (encodeTable (c3_table L1 A1 L2)).length).length)
        (encodeTable (c3_table L1 A1 L2)) :=
      bytesAt_congr htab (by simp [List.length_append]; omega)
    have htablen_le := c3_tablen_le h1 h2 h3
    rw [cs_loop_encoded (c3_table L1 A1 L2) m _ 0 start _ start _ fuel none
      htab' rfl (c3_table_small h1 h2 h3) (by omega)]
    rw [hsel]
  · intro hout
    have hsel : selectCallSite start (if before then ip0 else ip0 - 1) start
        (b + 3 + (encodeULEB (encodeTable (c3_table L1 A1 L2)).length).length
          + (encodeTable (c3_table L1 A1 L2)).length)
        (c3_table L1 A1 L2) (0, none) = (0, none) := by
      rw [c3_table]
      rcases hout with hlt | hge
      · rw [selectCallSite, if_pos (by omega)]
      · rw [selectCallSite, if_neg (by omega), if_neg (by omega)]
        rw [selectCallSite, if_neg (by omega), if_neg (by omega)]
        rw [selectCallSite, if_neg (by omega), if_neg (by omega)]
        rw [selectCallSite]
    have hscan1 := c3_scan_reduce L1 A1 L2 m b start trb drb ip0 cfa fuel 0 1
      before hmem h1 h2 h3 hfuel hsel
    norm_num at hscan1
    exact hscan1

theorem encodeULEB_small_eq {v : Nat} (h : v < 128) : encodeULEB v = [v] := by
  rw [encodeULEB, dif_pos h]

theorem c3_blob_eval : c3_blob 7 1 9 =
    [255, 255, 1, 12, 0, 10, 7, 1, 10, 5, 0, 0, 15, 8, 9, 0] := by
  rw [c3_blob, c3_table, encodeTable]
  simp only [List.map_cons, List.map_nil, encodeEntry, List.flatten_cons,
    List.flatten_nil, List.append_nil]
  rw [encodeULEB_small_eq (by norm_num : (0 : Nat) < 128),
    encodeULEB_small_eq (by norm_num : (10 : Nat) < 128),
    encodeULEB_small_eq (by norm_num : (7 : Nat) < 128),
    encodeULEB_small_eq (by norm_num : (1 : Nat) < 128),
    encodeULEB_small_eq (by norm_num : (5 : Nat) < 128),
    encodeULEB_small_eq (by norm_num : (15 : Nat) < 128),
    encodeULEB_small_eq (by norm_num : (8 : Nat) < 128),
    encodeULEB_small_eq (by norm_num : (9 : Nat) < 128)]
  norm_num
  rw [encodeULEB_small_eq (by norm_num : (12 : Nat) < 128)]
  decide

/-- Witness for C3: with the concrete table `[(0,10,7,1),(10,5,0,0),(15,8,9,0)]`
at region start 100, an ip of 112 (range `[10,15)`) continues unwinding and
an ip of 117 (range `[15,23)`) installs landing pad `100 + 9`. -/
theorem c3_call_site_lookup_witness :
    _yrt_exc_scan_lsda 100 w3mem (some 0) 1
        (some ⟨100, 0, 0, 112, true, some 0, 55⟩) 55 0 0 =
      .ok ⟨8, 0, 0, none, none⟩ ∧
    _yrt_exc_personality 100 w3mem 2 77 ⟨0, 0, 0, 0⟩
        (some ⟨100, 0, 0, 117, true, some 0, 55⟩) =
      .ok ⟨7, some 77, some 0, some (100 + 9), none⟩ := by
  have hmem : bytesAt w3mem 0 (c3_blob 7 1 9) := by
    rw [c3_blob_eval]
    decide
  constructor
  · have h := (c3_call_site_lookup.2 7 1 9 w3mem 0 100 0 0 112 55 100 77 true
      ⟨0, 0, 0, 0⟩ 112 (0 + 3 +
        (encodeULEB (encodeTable (c3_table 7 1 9)).length).length +
        (encodeTable (c3_table 7 1 9)).length)
      hmem (by norm_num) (by norm_num) (by norm_num) (by norm_num)
      (by norm_num) (by norm_num) (by norm_num) rfl rfl).1
    exact (h (by norm_num) (by norm_num)).1
  · have h := (c3_call_site_lookup.2 7 1 9 w3mem 0 100 0 0 117 55 100 77 true
      ⟨0, 0, 0, 0⟩ 117 (0 + 3 +
        (encodeULEB (encodeTable (c3_table 7 1 9)).length).length +
        (encodeTable (c3_table 7 1 9)).length)
      hmem (by norm_num) (by norm_num) (by norm_num) (by norm_num)
      (by norm_num) (by norm_num) (by norm_num) rfl rfl).2.1
    exact (h (by norm_num) (by norm_num)).2

/-- With `TTypeEncoding = DW_EH_PE_udata2` the type-table probe always
succeeds (two bytes are read, optionally relocated by the base). -/
theorem read_udata2_ok (fuel : Nat) (m : Mem) (base tp : Nat) :
    ∃ out, read_encoded_value_with_base fuel m 0x02 base tp = .ok out := by
  rw [read_encoded_value_with_base, if_neg (by decide)]
  change ∃ out, (Except.ok (readLE m tp 2, tp + 2) >>= _) = .ok out
  simp only [ok_bind]
  by_cases hr : readLE m tp 2 = 0
  · rw [if_neg (by simp [hr])]
    exact ⟨_, rfl⟩
  · rw [if_pos (by simpa using hr), if_neg (by decide)]
    change ∃ out,
      (if (0x02 : Nat) &&& 0x80 ≠ 0 then
        Except.ok (readLE m (add64 (readLE m tp 2) base) 8, tp + 2)
      else Except.ok (add64 (readLE m tp 2) base, tp + 2)) = .ok out
    rw [if_neg (by decide)]
    exact ⟨_, rfl⟩

/-- `_yrt_exc_action_table_lookup` computes the claim's walk outcome: the
first positive filter is returned (with `saw_handler` set, after a
successful type-table probe); zero filters set `saw_cleanup`; a zero
displacement ends the walk returning 0. -/
theorem action_table_lookup_chain :
    ∀ (fuel : Nat) (entries : List (Nat × Nat)) (m : Mem)
      (a actions TTypeBase TType TTypeEncoding : Nat) (sawH sawC : Bool),
    decodeChain m fuel a = .ok entries →
    actions &&& 0x08 = 0 →
    (∀ f fuel2, (chainSpec entries).1 = some f →
      ∃ sz, size_of_encoded_value TTypeEncoding = .ok sz ∧
        ∃ out, read_encoded_value_with_base fuel2 m TTypeEncoding TTypeBase
          (sub64 TType (f * sz % W64)) = .ok out) →
    action_table_lookup m fuel actions a TTypeBase TType TTypeEncoding sawH sawC =
      .ok ⟨(match (chainSpec entries).1 with
            | some f => toInt32 f
            | none => 0),
           sawH || (chainSpec entries).1.isSome,
           sawC || (chainSpec entries).2⟩ := by
  intro fuel
  induction fuel with
  | zero =>
    intro entries m a actions TTypeBase TType TTypeEncoding sawH sawC hdec
    cases hdec
  | succ fuel ih =>
    intro entries m a actions TTypeBase TType TTypeEncoding sawH sawC hdec
    intro hforce httype
    rw [decodeChain] at hdec
    cases hr1 : read_sleb128 fuel m a with
    | error e =>
      simp only [hr1, error_bind] at hdec
      cases hdec
    | ok v1 =>
      obtain ⟨f, ap⟩ := v1
      simp only [hr1, ok_bind] at hdec
      cases hr2 : read_sleb128 fuel m ap with
      | error e =>
        simp only [hr2, error_bind] at hdec
        cases hdec
      | ok v2 =>
        obtain ⟨d, rest'⟩ := v2
        simp only [hr2, ok_bind] at hdec
        rw [action_table_lookup]
        simp only [hr1, ok_bind, hr2]
        by_cases hd : d = 0
        · subst hd
          rw [if_pos rfl] at hdec
          cases hdec
          by_cases hf : f = 0
          · subst hf
            rw [if_pos rfl, if_pos rfl]
            simp [chainSpec]
          · rw [if_neg hf, if_neg (by simpa using hforce),
              if_pos (Nat.pos_of_ne_zero hf)]
            have hcs : (chainSpec [(f, 0)]).1 = some f := by
              simp [chainSpec, hf]
            obtain ⟨sz, hsz, out, hout⟩ := httype f fuel hcs
            rw [hsz, ok_bind, hout, ok_bind]
            simp [chainSpec, hf]
        · rw [if_neg hd] at hdec
          cases hrest : decodeChain m fuel (add64 ap d) with
          | error e =>
            simp only [hrest, error_bind] at hdec
            cases hdec
          | ok rest =>
            simp only [hrest, ok_bind] at hdec
            cases hdec
            by_cases hf : f = 0
            · subst hf
              rw [if_pos rfl, if_neg hd]
              have hrec := ih rest m (add64 ap d) actions TTypeBase TType
                TTypeEncoding sawH true hrest hforce
                (by
                  intro g fuel2 hg
                  apply httype g fuel2
                  simpa [chainSpec, hd] using hg)
              rw [hrec]
              simp [chainSpec, hd]
            · rw [if_neg hf, if_neg (by simpa using hforce),
                if_pos (Nat.pos_of_ne_zero hf)]
              have hcs : (chainSpec ((f, d) :: rest)).1 = some f := by
                simp [chainSpec, hf]
              obtain ⟨sz, hsz, out, hout⟩ := httype f fuel hcs
              rw [hsz, ok_bind, hout, ok_bind]
              simp [chainSpec, hf]

/-- **C4** (`_yrt_exc_action_table_lookup` lines 198–232 and
`_yrt_exc_scan_lsda` lines 301–311 of src/rt/except/personnality.c): the
action-table walk reads a signed-LEB128 filter and displacement per entry,
terminating on a zero displacement; a zero filter marks the frame cleanup;
the first positive filter is taken as the handler (after probing the type
table) and returned with `saw_handler` set.  In the search phase the
scanner then saves `(handler, lsda, landingPad, cfa)` into the header and
reports `_URC_HANDLER_FOUND = 6`, stopping phase-1 search at this frame. -/
theorem c4_action_table_walk :
    (∀ (fuel : Nat) (entries : List (Nat × Nat)) (m : Mem)
        (a actions TTypeBase TType TTypeEncoding : Nat) (sawH sawC : Bool),
      decodeChain m fuel a = .ok entries →
      actions &&& 0x08 = 0 →
      (∀ f fuel2, (chainSpec entries).1 = some f →
        ∃ sz, size_of_encoded_value TTypeEncoding = .ok sz ∧
          ∃ out, read_encoded_value_with_base fuel2 m TTypeEncoding TTypeBase
            (sub64 TType (f * sz % W64)) = .ok out) →
      action_table_lookup m fuel actions a TTypeBase TType TTypeEncoding
          sawH sawC =
        .ok ⟨(match (chainSpec entries).1 with
              | some f => toInt32 f
              | none => 0),
             sawH || (chainSpec entries).1.isSome,
             sawC || (chainSpec entries).2⟩) ∧
    (∀ (clen L1 f : Nat) (entries : List (Nat × Nat)) (m : Mem)
        (b start trb drb ip0 cfa fuel : Nat) (before : Bool) (ip AT : Nat),
      bytesAt m b (c4_blob clen L1) →
      0 < clen → clen < 2 ^ 32 → 0 < L1 → L1 < 2 ^ 32 →
      100 ≤ fuel →
      ip = (if before then ip0 else ip0 - 1) →
      AT = b + 4 +
        (encodeULEB (encodeTable (c4_table clen L1)).length).length +
        (encodeTable (c4_table clen L1)).length →
      start ≤ ip → ip < start + clen →
      decodeChain m fuel AT = .ok entries →
      (chainSpec entries).1 = some f →
      _yrt_exc_scan_lsda fuel m (some b) 1
          (some ⟨start, trb, drb, ip0, before, some b, cfa⟩) cfa 0 0 =
        .ok ⟨6, start + L1, toInt32 f,
             some ⟨toInt32 f, b, start + L1, cfa⟩, some AT⟩) := by
  refine ⟨action_table_lookup_chain, ?_⟩
  intro clen L1 f entries m b start trb drb ip0 cfa fuel before ip AT
  intro hmem hc1 hc2 hL1 hL2 hfuel hip hAT hlo hhi hdec hcs
  subst hip
  subst hAT
  rw [c4_blob] at hmem
  obtain ⟨hhdr2, htab⟩ := bytesAt_append.mp hmem
  obtain ⟨hhdr, hul⟩ := bytesAt_append.mp hhdr2
  obtain ⟨hb0, hhdr⟩ := bytesAt_cons.mp hhdr
  obtain ⟨hb1, hhdr⟩ := bytesAt_cons.mp hhdr
  obtain ⟨hb2, hhdr⟩ := bytesAt_cons.mp hhdr
  obtain ⟨hb3, -⟩ := bytesAt_cons.mp hhdr
  have hb1' : readByte m (b + 1) = 2 := hb1
  have hb3' : readByte m (b + 3) = 1 := hb3
  have hzero : bytesAt m (b + 2) (encodeULEB 0) := by
    rw [encodeULEB_small_eq (by norm_num)]
    intro k hk
    simp only [List.length_singleton] at hk
    interval_cases k
    simpa using hb2
  have hulz := read_uleb128_encode m (b + 2) fuel (by norm_num) hzero
    (by
      rw [encodeULEB_small_eq (by norm_num : (0 : Nat) < 128)]
      simp only [List.length_singleton]
      omega)
  rw [encodeULEB_small_eq (by norm_num : (0 : Nat) < 128)] at hulz
  simp only [List.length_singleton] at hulz
  have hulz2 : read_uleb128 fuel m (b + 2) = .ok (0, b + 3) := hulz
  have hul' : bytesAt m (b + 4)
      (encodeULEB (encodeTable (c4_table clen L1)).length) :=
    bytesAt_congr hul (by simp)
  have htablen_le : (encodeTable (c4_table clen L1)).length ≤ 20 := by
    have e0 : (encodeULEB 0).length = 1 := by
      rw [encodeULEB_small_eq (by norm_num), List.length_singleton]
    have e1 : (encodeULEB 1).length = 1 := by
      rw [encodeULEB_small_eq (by norm_num), List.length_singleton]
    have ec : (encodeULEB clen).length ≤ 5 :=
      encodeULEB_len_le 4 clen (lt_of_lt_of_le hc2 (by norm_num))
    have eL : (encodeULEB L1).length ≤ 5 :=
      encodeULEB_len_le 4 L1 (lt_of_lt_of_le hL2 (by norm_num))
    rw [c4_table, encodeTable]
    simp only [List.map_cons, List.map_nil, List.flatten_cons,
      List.flatten_nil, List.append_nil, encodeEntry, List.length_append]
    omega
  have htablen32 : (encodeTable (c4_table clen L1)).length < 2 ^ 32 := by
    have : (2 : Nat) ^ 32 = 4294967296 := by norm_num
    omega
  have hulen : (encodeULEB (encodeTable (c4_table clen L1)).length).length ≤ 5 :=
    encodeULEB_len_le 4 _ (by norm_num; omega)
  have hulread := read_uleb128_encode m (b + 4) fuel htablen32 hul' (by omega)
  have htab' : bytesAt m
      (b + 4 + (encodeULEB (encodeTable (c4_table clen L1)).length).length)
      (encodeTable (c4_table clen L1)) :=
    bytesAt_congr htab (by simp [List.length_append]; omega)
  have htsmall : tableSmall (c4_table clen L1) := by
    intro e he
    simp only [c4_table, List.mem_singleton] at he
    subst he
    exact ⟨by norm_num, by simpa, by simpa, by norm_num⟩
  have hloop := cs_loop_encoded (c4_table clen L1) m
    (b + 4 + (encodeULEB (encodeTable (c4_table clen L1)).length).length)
    0 start (if before then ip0 else ip0 - 1) start
    (b + 4 + (encodeULEB (encodeTable (c4_table clen L1)).length).length
      + (encodeTable (c4_table clen L1)).length)
    fuel none htab' rfl htsmall (by omega)
  have hsel : selectCallSite start (if before then ip0 else ip0 - 1) start
      (b + 4 + (encodeULEB (encodeTable (c4_table clen L1)).length).length
        + (encodeTable (c4_table clen L1)).length)
      (c4_table clen L1) (0, none) =
      (start + L1,
       some (b + 4 + (encodeULEB (encodeTable (c4_table clen L1)).length).length
        + (encodeTable (c4_table clen L1)).length + 1 - 1)) := by
    rw [c4_table]
    rw [selectCallSite, if_neg (by omega), if_pos (by omega)]
    rw [if_pos (by omega : L1 ≠ 0), if_pos (by omega : (1 : Nat) ≠ 0)]
  rw [hsel] at hloop
  have hAT1 : b + 4 +
      (encodeULEB (encodeTable (c4_table clen L1)).length).length +
      (encodeTable (c4_table clen L1)).length + 1 - 1 =
      b + 4 +
      (encodeULEB (encodeTable (c4_table clen L1)).length).length +
      (encodeTable (c4_table clen L1)).length := by omega
  rw [hAT1] at hloop
  have hlook := action_table_lookup_chain fuel entries m
    (b + 4 + (encodeULEB (encodeTable (c4_table clen L1)).length).length
      + (encodeTable (c4_table clen L1)).length)
    1 0 (add64 (b + 2 + 1) 0) 0x02 false false hdec (by decide)
    (by
      intro g fuel2 hg
      exact ⟨2, rfl, read_udata2_ok fuel2 m 0 _⟩)
  rw [hcs] at hlook
  rw [_yrt_exc_scan_lsda]
  simp [hb0, hb1', hb2, hb3', hulz2, hulread, hloop, hlook, ok_bind, bind,
    Except.bind, pure, Except.pure, base_of_encoded_value, apply_ite]

theorem c4_blob_eval : c4_blob 10 7 = [255, 2, 0, 1, 4, 0, 10, 7, 1] := by
  rw [c4_blob, c4_table, encodeTable]
  simp only [List.map_cons, List.map_nil, encodeEntry, List.flatten_cons,
    List.flatten_nil, List.append_nil]
  rw [encodeULEB_small_eq (by norm_num : (0 : Nat) < 128),
    encodeULEB_small_eq (by norm_num : (10 : Nat) < 128),
    encodeULEB_small_eq (by norm_num : (7 : Nat) < 128),
    encodeULEB_small_eq (by norm_num : (1 : Nat) < 128)]
  norm_num
  rw [encodeULEB_small_eq (by norm_num : (4 : Nat) < 128)]
  decide

theorem c4_tab_eval : encodeTable (c4_table 10 7) = [0, 10, 7, 1] := by
  rw [c4_table, encodeTable]
  simp only [List.map_cons, List.map_nil, encodeEntry, List.flatten_cons,
    List.flatten_nil, List.append_nil]
  rw [encodeULEB_small_eq (by norm_num : (0 : Nat) < 128),
    encodeULEB_small_eq (by norm_num : (10 : Nat) < 128),
    encodeULEB_small_eq (by norm_num : (7 : Nat) < 128),
    encodeULEB_small_eq (by norm_num : (1 : Nat) < 128)]
  decide

/-- Witness for C4: in `w4mem` the action chain at address 9 decodes to the
single entry `(filter 5, displacement 0)`; the search-phase scan of the
surrounding LSDA reports `_URC_HANDLER_FOUND = 6`, landing pad `100 + 7`
and handler filter 5, with that data saved for phase 2. -/
theorem c4_action_table_walk_witness :
    decodeChain w4mem 100 9 = .ok [(5, 0)] ∧
    _yrt_exc_scan_lsda 100 w4mem (some 0) 1
        (some ⟨100, 0, 0, 105, true, some 0, 55⟩) 55 0 0 =
      .ok ⟨6, 107, 5, some ⟨5, 0, 107, 55⟩, some 9⟩ := by
  have hmem : bytesAt w4mem 0 (c4_blob 10 7) := by
    rw [c4_blob_eval]
    decide
  have hdec : decodeChain w4mem 100 9 = .ok [(5, 0)] := by rfl
  refine ⟨hdec, ?_⟩
  have hlen : (encodeTable (c4_table 10 7)).length = 4 := by
    rw [c4_tab_eval]
    decide
  have hul : (encodeULEB (encodeTable (c4_table 10 7)).length).length = 1 := by
    rw [hlen, encodeULEB_small_eq (by norm_num : (4 : Nat) < 128)]
    decide
  have hAT : (9 : Nat) = 0 + 4 +
      (encodeULEB (encodeTable (c4_table 10 7)).length).length +
      (encodeTable (c4_table 10 7)).length := by
    rw [hul, hlen]
  have h := c4_action_table_walk.2 10 7 5 [(5, 0)] w4mem 0 100 0 0 105 55 100
    true 105 9 hmem (by norm_num) (by norm_num) (by norm_num) (by norm_num)
    (by norm_num) rfl hAT (by norm_num) (by norm_num) hdec rfl
  simpa [toInt32] using h

/-- **C5** (`_yrt_exc_personality` lines 319–354 and `_yrt_exc_restore`
lines 34–40 of src/rt/except/personnality.c): called with
`actions == (_UA_CLEANUP_PHASE | _UA_HANDLER_FRAME)` the personality
routine restores `(handler, lsda, landingPad, cfa)` from the exception
header saved in phase 1; a zero restored landing pad terminates fatally
with "unwind error", otherwise register 0 is set to the exception-header
pointer, register 1 to the restored handler index, the instruction pointer
to the restored landing pad, and `_URC_INSTALL_CONTEXT = 7` is returned.
The third conjunct shows no LSDA re-parse happens: the outcome is
independent of the memory, the fuel and the unwind context. -/
theorem c5_cleanup_phase_restore :
    ∀ (fuel : Nat) (m : Mem) (hdrAddr : Nat) (hdr : HeaderSaved)
      (ctx : Option Ctx),
    (hdr.landingPad ≠ 0 →
      _yrt_exc_personality fuel m (0x02 ||| 0x04) hdrAddr hdr ctx =
        .ok ⟨7, some hdrAddr, some hdr.handler, some hdr.landingPad, none⟩) ∧
    (hdr.landingPad = 0 →
      _yrt_exc_personality fuel m (0x02 ||| 0x04) hdrAddr hdr ctx =
        .error (.term "unwind error")) ∧
    (∀ (fuel2 : Nat) (m2 : Mem) (ctx2 : Option Ctx),
      _yrt_exc_personality fuel m (0x02 ||| 0x04) hdrAddr hdr ctx =
        _yrt_exc_personality fuel2 m2 (0x02 ||| 0x04) hdrAddr hdr ctx2) := by
  intro fuel m hdrAddr hdr ctx
  refine ⟨?_, ?_, ?_⟩
  · intro hlp
    rw [_yrt_exc_personality.eq_def, if_pos rfl, if_neg hlp, personality_tail,
      if_neg hlp]
  · intro hlp
    rw [_yrt_exc_personality.eq_def, if_pos rfl, if_pos hlp]
  · intro fuel2 m2 ctx2
    rw [_yrt_exc_personality.eq_def, if_pos rfl,
      _yrt_exc_personality.eq_def, if_pos rfl]

/-- Witness for C5: a header with saved handler 2 and landing pad 9
installs the context `⟨7, some 77, some 2, some 9, none⟩`; a header whose
saved landing pad is 0 terminates fatally. -/
theorem c5_cleanup_phase_restore_witness :
    _yrt_exc_personality 0 (fun a => a) (0x02 ||| 0x04) 77 ⟨3, 2, 9, 55⟩
        none = .ok ⟨7, some 77, some 2, some 9, none⟩ ∧
    _yrt_exc_personality 0 (fun a => a) (0x02 ||| 0x04) 88 ⟨3, 2, 0, 55⟩
        none = .error (.term "unwind error") :=
  ⟨(c5_cleanup_phase_restore 0 (fun a => a) 77 ⟨3, 2, 9, 55⟩ none).1
      (by norm_num),
   (c5_cleanup_phase_restore 0 (fun a => a) 88 ⟨3, 2, 0, 55⟩ none).2.1 rfl⟩

/-- **C10** (`__gyc_personality_v0`, src/rt/except/personnality.c lines
357–369 and src/c/except.c lines 308–320): any version argument other than
1 is answered immediately with `_URC_FATAL_PHASE1_ERROR = 3` — no register
is set, nothing is saved, and the result depends on none of the other
inputs; version 1 falls through to `_yrt_exc_personality` unchanged.  The
second conjunct covers the src/c variant with its personality body
abstracted as the continuation `k`. -/
theorem c10_personality_version_check :
    (∀ (fuel : Nat) (m : Mem) (iversion : Int) (actions hdrAddr : Nat)
        (hdr : HeaderSaved) (ctx : Option Ctx), iversion ≠ 1 →
      __gyc_personality_v0 fuel m iversion actions hdrAddr hdr ctx =
        .ok ⟨3, none, none, none, none⟩) ∧
    (∀ (k : Nat → Except EFail POut) (iversion : Int) (actions : Nat),
        iversion ≠ 1 →
      gyc_personality_v0_c k iversion actions =
        .ok ⟨3, none, none, none, none⟩) ∧
    (∀ (fuel : Nat) (m : Mem) (actions hdrAddr : Nat) (hdr : HeaderSaved)
        (ctx : Option Ctx),
      __gyc_personality_v0 fuel m 1 actions hdrAddr hdr ctx =
        _yrt_exc_personality fuel m actions hdrAddr hdr ctx) := by
  refine ⟨?_, ?_, ?_⟩
  · intro fuel m iversion actions hdrAddr hdr ctx hv
    rw [__gyc_personality_v0, if_pos hv]
  · intro k iversion actions hv
    rw [gyc_personality_v0_c, if_pos hv]
  · intro fuel m actions hdrAddr hdr ctx
    rw [__gyc_personality_v0, if_neg (by norm_num)]

/-- Witness for C10: version 0 is rejected with code 3 by both variants. -/
theorem c10_personality_version_check_witness :
    __gyc_personality_v0 0 (fun a => a) 0 1 0 ⟨0, 0, 0, 0⟩ none =
      .ok ⟨3, none, none, none, none⟩ ∧
    gyc_personality_v0_c (fun a => .ok ⟨0, none, none, some a, none⟩) 0 1 =
      .ok ⟨3, none, none, none, none⟩ :=
  ⟨c10_personality_version_check.1 0 (fun a => a) 0 1 0 ⟨0, 0, 0, 0⟩ none
      (by norm_num),
   c10_personality_version_check.2.1 (fun a => .ok ⟨0, none, none, some a, none⟩)
      0 1 (by norm_num)⟩

end RtP

namespace CExc

theorem free_header_stack (st : St) (l : Loc) :
    (_yrt_exc_free_header st l).stack = st.stack := by
  cases l <;> rfl

/-- **C1** (`_yrt_exc_throw`, src/c/except.c lines 164–177): whatever reason
code `_Unwind_RaiseException` returns with, `_yrt_exc_throw` never returns
normally: the new header has been pushed onto the exception stack, and the
function terminates fatally — with the "uncaught exception" diagnostic when
the unwinder reports `_URC_END_OF_STACK`, and with the "unwind error "
internal-invariant diagnostic for any other return. -/
theorem c1_throw_never_returns (st : St) (data reason : Nat) :
    ∃ st', _yrt_exc_throw st data reason =
        .term (if reason = 5 then "uncaught exception" else "unwind error ") st' ∧
      st'.stack = (_yrt_exc_create_header st data).2 :: st.stack ∧
      ∀ (v : Unit) st'', _yrt_exc_throw st data reason ≠ .ret v st'' := by
  refine ⟨_yrt_exc_push (_yrt_exc_create_header st data).1
      (_yrt_exc_create_header st data).2, ?_, ?_, ?_⟩
  · rw [_yrt_exc_throw]
    split <;> simp_all
  · rw [_yrt_exc_push, _yrt_exc_create_header]
    split <;> rfl
  · intro v st''
    rw [_yrt_exc_throw]
    split <;> simp

/-- **C2** (`_yrt_exc_begin_catch` lines 179–192, `_yrt_exc_pop` lines
116–120): if the handed-back header is exactly the top of the exception
stack, begin-catch pops it, tells the unwind library the exception may be
deleted (`_Unwind_DeleteException`, whose cleanup callback frees the
header), and returns the payload; if the top is a different header it
terminates fatally with the "Catch error" diagnostic.  Consequently a
sequence of retirements of the whole stack succeeds exactly when it retires
the headers in reverse (LIFO) order — i.e. in the order of the stack list,
topmost (most recently thrown) first. -/
theorem c2_begin_catch_lifo (st : St) :
    (∀ h rest, st.stack = h :: rest →
      _yrt_exc_begin_catch st h =
        .ret (objectAt st h) (delete_exception { st with stack := rest } h)) ∧
    (∀ h top rest, st.stack = top :: rest → h ≠ top →
      _yrt_exc_begin_catch st h = .term "Catch error" { st with stack := rest }) ∧
    (∀ ls : List Loc, ls.length = st.stack.length →
      (retire_all st ls = true ↔ ls = st.stack)) := by
  refine ⟨?_, ?_, ?_⟩
  · intro h rest hs
    rw [_yrt_exc_begin_catch, hs]
    simp
  · intro h top rest hs hne
    rw [_yrt_exc_begin_catch, hs]
    simp [hne]
  · intro ls
    induction ls generalizing st with
    | nil =>
      intro hlen
      have : st.stack = [] := by
        cases hstk : st.stack with
        | nil => rfl
        | cons a b => rw [hstk] at hlen; simp at hlen
      simp [retire_all, this]
    | cons l rest ih =>
      intro hlen
      cases hstk : st.stack with
      | nil => rw [hstk] at hlen; simp at hlen
      | cons top srest =>
        rw [retire_all, _yrt_exc_begin_catch, hstk]
        by_cases hl : l = top
        · subst hl
          simp only [ne_eq, not_true_eq_false, if_neg, ite_false]
          have hstack' : (delete_exception { st with stack := srest } l).stack
              = srest := free_header_stack _ _
          have hlen' : rest.length = (delete_exception
              { st with stack := srest } l).stack.length := by
            rw [hstack']
            rw [hstk] at hlen
            simpa using hlen
          rw [ih _ hlen']
          rw [hstack']
          simp
        · simp only [ne_eq, hl, not_false_eq_true, if_pos]
          constructor
          · intro hfalse
            cases hfalse
          · intro heq
            rw [List.cons_eq_cons] at heq
            exact absurd heq.1 hl

/-- Witness for C2 (and the LIFO consequence) on a two-header stack. -/
theorem c2_begin_catch_lifo_witness :
    (_yrt_exc_begin_catch ⟨5, [(0, 9)], 1, [.heap 0, .slot], 1⟩ (.heap 0) =
      .ret 9 ⟨5, [], 1, [.slot], 1⟩) ∧
    retire_all ⟨5, [(0, 9)], 1, [.heap 0, .slot], 1⟩ [.heap 0, .slot] = true ∧
    retire_all ⟨5, [(0, 9)], 1, [.heap 0, .slot], 1⟩ [.slot, .heap 0] = false := by
  have h := c2_begin_catch_lifo ⟨5, [(0, 9)], 1, [.heap 0, .slot], 1⟩
  refine ⟨?_, ?_, ?_⟩
  · have h1 := h.1 (.heap 0) [.slot] rfl
    rw [h1]
    decide
  · exact (h.2.2 [.heap 0, .slot] (by decide)).mpr (by decide)
  · have := (h.2.2 [.slot, .heap 0] (by decide))
    by_contra hc
    simp only [Bool.not_eq_false] at hc
    have := this.mp hc
    simp at this

/-- **C7** (`_yrt_exc_create_header` lines 80–93, `_yrt_exc_free_header`
lines 98–103): header creation returns the preallocated `ehstorage` slot
exactly when that slot is unused (its `object` field is NULL) — equivalently
exactly when no `calloc` happens — and heap-allocates otherwise;
`_yrt_exc_free_header` zeroes the slot (making it reusable) and releases a
heap header.  Hence a thread that throws and catches exactly one exception
at a time returns to its initial state after every cycle and never allocates
an ExceptionHeader on the heap. -/
theorem c7_slot_reuse (st : St) (obj : Nat) :
    ((_yrt_exc_create_header st obj).2 = .slot ↔ st.slotObj = 0) ∧
    ((_yrt_exc_create_header st obj).1.allocs = st.allocs ↔ st.slotObj = 0) ∧
    ((_yrt_exc_free_header st .slot).slotObj = 0) ∧
    (∀ n, ¬heapLive (_yrt_exc_free_header st (.heap n)) n) ∧
    (st.slotObj = 0 → obj ≠ 0 → throw_catch_cycle st obj = .ret obj st) ∧
    (∀ ds : List Nat, st.slotObj = 0 → (∀ d ∈ ds, d ≠ 0) →
      run_cycles st ds = some st) := by
  have hcycle : ∀ (st' : St) (d : Nat), st'.slotObj = 0 → d ≠ 0 →
      throw_catch_cycle st' d = .ret d st' := by
    intro st' d h0 hd
    obtain ⟨a, hp, ni, sk, al⟩ := st'
    simp only at h0
    subst h0
    rw [throw_catch_cycle, throw_push, _yrt_exc_create_header]
    simp only [ne_eq, not_true_eq_false, if_neg, ite_false]
    rw [_yrt_exc_push, _yrt_exc_begin_catch]
    simp only [objectAt]
    rw [delete_exception, _yrt_exc_free_header]
    simp
  refine ⟨?_, ?_, ?_, ?_, hcycle st obj, ?_⟩
  · rw [_yrt_exc_create_header]
    split <;> simp_all
  · rw [_yrt_exc_create_header]
    split <;> simp_all
  · rfl
  · intro n
    rw [heapLive, _yrt_exc_free_header]
    simp only [List.find?_filter]
    rw [Option.isSome_iff_exists]
    push_neg
    intro x hx
    have := List.find?_some hx
    simp only [Function.comp, decide_eq_true_eq, Bool.and_eq_true] at this
    omega
  · intro ds
    induction ds generalizing st with
    | nil => intro _ _; rfl
    | cons d rest ih =>
      intro h0 hall
      rw [run_cycles, hcycle st d h0 (hall d (by simp))]
      exact ih st h0 (fun x hx => hall x (by simp [hx]))

/-- Witness for C7 at a concrete clean state and two cycles. -/
theorem c7_slot_reuse_witness :
    run_cycles ⟨0, [], 0, [], 0⟩ [7, 8] = some ⟨0, [], 0, [], 0⟩ ∧
    (⟨0, [], 0, [], 0⟩ : St).allocs = 0 :=
  ⟨(c7_slot_reuse ⟨0, [], 0, [], 0⟩ 7).2.2.2.2.2 [7, 8] rfl (by decide), rfl⟩

end CExc

namespace ThrowC

theorem countId_nil (i : Nat) : countId i [] = 0 := rfl

theorem countId_cons (i : Nat) (n : TNode) (rest : List TNode) :
    countId i (n :: rest) = countId i rest + (if n.id = i then 1 else 0) := by
  rw [countId, countId, List.countP_cons]
  by_cases h : n.id = i <;> simp [h]

theorem atMostOne_of_cons {n : TNode} {rest : List TNode}
    (h : atMostOne (n :: rest)) : atMostOne rest := by
  intro i
  have := h i
  rw [countId_cons] at this
  omega

theorem get_current_none_iff (id : Nat) (reg : List TNode) :
    get_current id reg = none ↔ countId id reg = 0 := by
  induction reg with
  | nil => simp [get_current, countId_nil]
  | cons n rest ih =>
    rw [get_current, countId_cons]
    by_cases h : n.id = id
    · simp [h]
    · simp [h, ih]

theorem countId_insert (i id : Nat) (reg : List TNode) :
    countId i (insert_thread id reg) =
      countId i reg + (if id = i then 1 else 0) := by
  rw [insert_thread, countId_cons]

theorem countId_update (i id : Nat) (f : TNode → TNode)
    (hf : ∀ n, (f n).id = n.id) (reg : List TNode) :
    countId i (update_node id f reg) = countId i reg := by
  induction reg with
  | nil => rfl
  | cons n rest ih =>
    rw [update_node]
    by_cases h : n.id = id
    · rw [if_pos h, countId_cons, countId_cons, hf]
    · rw [if_neg h, countId_cons, countId_cons, ih]

theorem countId_remove (i id : Nat) (reg : List TNode) :
    countId i (remove_thread id reg) ≤ countId i reg := by
  induction reg with
  | nil => simp [remove_thread]
  | cons n rest ih =>
    rw [remove_thread]
    by_cases h : n.id = id
    · rw [if_pos h, countId_cons]
      omega
    · rw [if_neg h, countId_cons, countId_cons]
      omega

theorem get_current_update (id : Nat) (f : TNode → TNode)
    (hf : ∀ n, (f n).id = n.id) (reg : List TNode) :
    get_current id (update_node id f reg) = (get_current id reg).map f := by
  induction reg with
  | nil => rfl
  | cons n rest ih =>
    rw [update_node, get_current]
    by_cases h : n.id = id
    · rw [if_pos h, get_current, if_pos (by rw [hf]; exact h)]
      simp [h]
    · rw [if_neg h, get_current, if_neg h, ih]
      simp [h]

theorem get_current_remove (id : Nat) (reg : List TNode)
    (h : atMostOne reg) : get_current id (remove_thread id reg) = none := by
  induction reg with
  | nil => rfl
  | cons n rest ih =>
    rw [remove_thread]
    by_cases hn : n.id = id
    · rw [if_pos hn, get_current_none_iff]
      have := h id
      rw [countId_cons, if_pos hn] at this
      omega
    · rw [if_neg hn, get_current, if_neg hn]
      exact ih (atMostOne_of_cons h)

/-- **C8** (`_yrt_get_thread_stack` lines 50–57, `_yrt_exc_pop_list` lines
99–115 of src/runtime/src/throw.c): each thread has at most one
ThreadExceptionStack node — every registry operation preserves the
at-most-one invariant, and a node is created lazily exactly when the
thread's first lookup finds none; popping removes the node from the registry
exactly when the popped catcher was the last one and no pending payload
remains (`data` NULL), and never removes it otherwise. -/
theorem c8_registry_lifecycle :
    (∀ id j reg, atMostOne reg →
      atMostOne (get_thread_stack id reg) ∧
      atMostOne (exc_push id j reg) ∧
      (∀ j' reg', exc_pop id reg = .ok j' reg' → atMostOne reg')) ∧
    (∀ id reg, get_current id reg = none →
      get_current id (get_thread_stack id reg) = some ⟨id, [], 0⟩ ∧
      countId id (get_thread_stack id reg) = 1) ∧
    (∀ id reg n, get_current id reg = some n → get_thread_stack id reg = reg) ∧
    (∀ id reg n j rest, atMostOne reg → get_current id reg = some n →
      n.stack = j :: rest →
      ∃ reg', exc_pop id reg = .ok j reg' ∧
        (get_current id reg' = none ↔ rest = [] ∧ n.data = 0) ∧
        (rest ≠ [] ∨ n.data ≠ 0 →
          get_current id reg' = some { n with stack := rest })) := by
  have hmono : ∀ id reg, atMostOne reg → atMostOne (get_thread_stack id reg) := by
    intro id reg h
    rw [get_thread_stack]
    cases hg : get_current id reg with
    | none =>
      intro i
      rw [countId_insert]
      have h0 : countId id reg = 0 := (get_current_none_iff id reg).mp hg
      by_cases hi : id = i
      · rw [if_pos hi]
        subst hi
        omega
      · rw [if_neg hi]
        have := h i
        omega
    | some n => exact h
  refine ⟨?_, ?_, ?_, ?_⟩
  · intro id j reg h
    refine ⟨hmono id reg h, ?_, ?_⟩
    · rw [exc_push]
      intro i
      rw [countId_update i id (fun n => { n with stack := j :: n.stack })
        (fun n => rfl)]
      exact hmono id reg h i
    · intro j' reg' hpop
      cases hg : get_current id reg with
      | none =>
        simp only [exc_pop, hg] at hpop
        cases hpop
      | some n =>
        cases hstk : n.stack with
        | nil =>
          simp only [exc_pop, hg, hstk] at hpop
          cases hpop
        | cons jj rest =>
          simp only [exc_pop, hg, hstk] at hpop
          split at hpop
          · cases hpop
            intro i
            calc countId i (remove_thread id
                  (update_node id (fun n => { n with stack := rest }) reg))
                ≤ countId i (update_node id (fun n => { n with stack := rest }) reg) :=
                  countId_remove ..
              _ = countId i reg :=
                  countId_update i id (fun n => { n with stack := rest })
                    (fun n => rfl) reg
              _ ≤ 1 := h i
          · cases hpop
            intro i
            rw [countId_update i id (fun n => { n with stack := rest })
              (fun n => rfl)]
            exact h i
  · intro id reg hg
    rw [get_thread_stack, hg]
    constructor
    · rw [insert_thread, get_current, if_pos rfl]
    · rw [countId_insert, if_pos rfl, (get_current_none_iff id reg).mp hg]
  · intro id reg n hg
    rw [get_thread_stack, hg]
  · intro id reg n j rest h hg hstk
    simp only [exc_pop, hg, hstk]
    have hupd : get_current id (update_node id (fun n => { n with stack := rest }) reg)
        = some { n with stack := rest } := by
      rw [get_current_update id (fun n => { n with stack := rest })
        (fun n => rfl) reg, hg]
      rfl
    by_cases hc : rest = [] ∧ n.data = 0
    · rw [if_pos hc]
      obtain ⟨hc1, hc2⟩ := hc
      subst hc1
      refine ⟨_, rfl, ?_, ?_⟩
      · have hrem : get_current id (remove_thread id
            (update_node id (fun n => { n with stack := ([] : List Nat) }) reg)) = none := by
          apply get_current_remove
          intro i
          rw [countId_update i id (fun n => { n with stack := ([] : List Nat) })
            (fun n => rfl)]
          exact h i
        rw [hrem]
        simp [hc2]
      · intro hcontra
        rcases hcontra with h1 | h2
        · exact absurd rfl h1
        · exact absurd hc2 h2
    · rw [if_neg hc]
      refine ⟨_, rfl, ?_, ?_⟩
      · rw [hupd]
        simp only [reduceCtorEq, false_iff]
        exact hc
      · intro _
        exact hupd

theorem atMostOne_singleton (n : TNode) : atMostOne [n] := by
  intro i
  rw [countId_cons, countId_nil]
  split <;> omega

/-- Witness for C8: a fresh thread's node appears on first use, is removed
when the last catcher is popped with no pending payload, and is kept while a
payload is pending. -/
theorem c8_registry_lifecycle_witness :
    (∃ reg', exc_pop 1 [⟨1, [10], 0⟩] = .ok 10 reg' ∧ get_current 1 reg' = none) ∧
    (∃ reg', exc_pop 1 [⟨1, [10], 5⟩] = .ok 10 reg' ∧
      get_current 1 reg' = some ⟨1, [], 5⟩) := by
  constructor
  · obtain ⟨reg', hpop, hiff, -⟩ := c8_registry_lifecycle.2.2.2 1 [⟨1, [10], 0⟩]
      ⟨1, [10], 0⟩ 10 [] (atMostOne_singleton _) (by decide) rfl
    exact ⟨reg', hpop, hiff.mpr ⟨rfl, rfl⟩⟩
  · obtain ⟨reg', hpop, -, hkeep⟩ := c8_registry_lifecycle.2.2.2 1 [⟨1, [10], 5⟩]
      ⟨1, [10], 5⟩ 10 [] (atMostOne_singleton _) (by decide) rfl
    exact ⟨reg', hpop, hkeep (Or.inr (by decide))⟩

end ThrowC

namespace Panic

/-- **C9** (`_yrt_exc_terminate` panic.c lines 15–30, `bt_sighandler`
run.c lines 25–38): a second entry into a fatal-termination path while a
first is still executing — a recursive `_yrt_exc_terminate` call (guard flag
already set), or a fault raised while the signal-handler termination path is
already running (`first ≠ 0`) — aborts immediately after a short warning,
with no stack-trace resolution and no further diagnostics.  A first entry
raises its guard as its very first step, before any diagnostic work, so any
re-entry during the diagnostics sees the guard. -/
theorem c9_recursive_termination_guard :
    (∀ msg t, _yrt_exc_terminate true msg t =
        ([.printRecursionWarning, .abort], true) ∧
      .resolveTrace ∉ (_yrt_exc_terminate true msg t).1) ∧
    (∀ first t, first ≠ 0 →
      bt_sighandler first t = (_yrt_exc_panic_no_trace, first) ∧
      bt_sighandler first t = ([.printPanicNoTrace, .abort], first) ∧
      .resolveTrace ∉ (bt_sighandler first t).1) ∧
    (∀ msg t, (_yrt_exc_terminate false msg t).1.head? = some .setTerminating ∧
      (_yrt_exc_terminate false msg t).2 = true) ∧
    (∀ t, (bt_sighandler 0 t).2 = 1) := by
  refine ⟨?_, ?_, ?_, ?_⟩
  · intro msg t
    constructor
    · rfl
    · rw [_yrt_exc_terminate]
      simp
  · intro first t hf
    rw [bt_sighandler, if_neg hf]
    refine ⟨rfl, rfl, ?_⟩
    rw [_yrt_exc_panic_no_trace]
    simp
  · intro msg t
    constructor
    · rw [_yrt_exc_terminate]
      simp
    · rfl
  · intro t
    rfl

/-- Witness for C9 at concrete flag states. -/
theorem c9_recursive_termination_guard_witness :
    _yrt_exc_terminate true "m" true = ([.printRecursionWarning, .abort], true) ∧
    bt_sighandler 1 true = ([.printPanicNoTrace, .abort], 1) :=
  ⟨(c9_recursive_termination_guard.1 "m" true).1,
   (c9_recursive_termination_guard.2.1 1 true (by decide)).2.1⟩

end Panic
